import Mathlib

/-!
# The REP socket of nanomsg (`src/protocols/reqrep/rep.c`)

A shallow embedding of the reply-side protocol state machine: the functions
`nn_rep_init`, `nn_rep_create`, `nn_rep_events`, `nn_rep_send`, `nn_rep_recv`,
`nn_rep_term` and `nn_rep_destroy` over the state `struct nn_rep`, followed by
the properties proved about them.  `nn_rep_events` is embedded twice: as the
mask it returns, and as a state transformer for the statement that it leaves
the socket state alone.

The raw routing socket (`xrep.c`) is not part of the sources.  Every call into
it is represented by the outcome it reports to `rep.c`: the return code of
`nn_xrep_send`, the return code and delivered message of `nn_xrep_recv`, the
readiness mask of `nn_xrep_events`.  These outcomes are arguments of the
embedded functions, so every statement quantifies over all of them.
-/

namespace Rep

/-! ## Data model -/

/-- A byte blob; each element stands for one byte. -/
abbrev Bytes := List Nat

/-- Modelled from the spec: `utils/chunkref.h` is missing from the sources.
A chunk reference (`struct nn_chunkref`) owns an opaque byte blob.  Besides the
live blob the model keeps apart the three ways in which a reference holds none:
memory never initialised, blob released by `nn_chunkref_term`, blob moved out
by `nn_chunkref_mv`. -/
inductive nn_chunkref where
  | uninit : nn_chunkref
  | live (data : Bytes) : nn_chunkref
  | termed : nn_chunkref
  | moved : nn_chunkref
  deriving DecidableEq, Repr

/-- Whether the reference currently owns a blob. -/
def nn_chunkref.isLive : nn_chunkref → Bool
  | .live _ => true
  | _ => false

/-- Modelled from the spec: `nn_chunkref_init (self, size)` of the missing
`utils/chunkref.c` makes `self` own a fresh blob of `size` bytes. -/
def nn_chunkref_init (size : Nat) : nn_chunkref :=
  .live (List.replicate size 0)

/-- Modelled from the spec: `nn_chunkref_term (self)` of the missing
`utils/chunkref.c` releases the blob; the reference owns nothing afterwards. -/
def nn_chunkref_term (_self : nn_chunkref) : nn_chunkref :=
  .termed

/-- Modelled from the spec: `nn_chunkref_mv (dst, src)` of the missing
`utils/chunkref.c` moves the blob of `src` into `dst` without copying it.  The
result is the pair `(dst, src)` after the call: `dst` takes over whatever `src`
was, and a live `src` is left moved-out. -/
def nn_chunkref_mv (src : nn_chunkref) : nn_chunkref × nn_chunkref :=
  match src with
  | .live d => (.live d, .moved)
  | c => (c, c)

/-- Modelled from the spec: `nn_chunkref_size (self)` of the missing
`utils/chunkref.c` is the length of the owned blob; a reference that owns no
blob is read as size 0. -/
def nn_chunkref_size : nn_chunkref → Nat
  | .live d => d.length
  | _ => 0

/-- The message `struct nn_msg`: a header (routing envelope) and a body. -/
structure nn_msg where
  hdr : nn_chunkref
  body : nn_chunkref
  deriving DecidableEq, Repr

/-- The flag `NN_REP_INPROGRESS` of `rep.c`. -/
def NN_REP_INPROGRESS : Nat := 1

/-- The state `struct nn_rep` without the embedded raw socket `xrep`, whose
state belongs to the raw layer.  `flags` is a `uint32_t`. -/
structure nn_rep where
  flags : Nat
  backtrace : nn_chunkref
  deriving DecidableEq, Repr

/-- Modelled from the spec: `nn.h` is missing from the sources; `EAGAIN` is the
"would block" code, with its Linux value. -/
def EAGAIN : Int := 11

/-- Modelled from the spec: `nn.h` is missing from the sources; `EFSM` is the
protocol-state error, `NN_HAUSNUMERO + 54`. -/
def EFSM : Int := 156384712 + 54

/-- Modelled from the spec: `protocol.h` is missing from the sources; the
"input ready" bit of a readiness mask. -/
def NN_SOCKBASE_EVENT_IN : Int := 1

/-- Modelled from the spec: `protocol.h` is missing from the sources; the
"output ready" bit of a readiness mask. -/
def NN_SOCKBASE_EVENT_OUT : Int := 2

/-- Bitwise complement on `uint32_t`. -/
def uint32_not (n : Nat) : Nat := 4294967295 - n % 4294967296

/-- What a call does outside the socket state, in program order. -/
inductive Effect where
  /-- `nn_chunkref_term` was applied to a reference found in state `c`. -/
  | chunkref_term (c : nn_chunkref) : Effect
  /-- `nn_xrep_send` was invoked with message `m`. -/
  | xrep_send (m : nn_msg) : Effect
  /-- `nn_xrep_recv` was invoked. -/
  | xrep_recv : Effect
  deriving DecidableEq, Repr

/-- How a call ends: it returns a code, or an assertion (`nn_assert`,
`errnum_assert`) fails and the process is aborted. -/
inductive Exit where
  | ret (rc : Int) : Exit
  | assert_failed : Exit
  deriving DecidableEq, Repr

/-- The result of one call of `nn_rep_send` or `nn_rep_recv`: how it ended, the
socket state and the caller's message buffer afterwards, and the effects. -/
structure Call where
  outcome : Exit
  rep : nn_rep
  msg : nn_msg
  trace : List Effect
  deriving DecidableEq, Repr

/-- What `nn_xrep_recv` reports: its return code and, for return code 0, the
routing token and the body of the message it wrote into the buffer. -/
structure nn_xrep_recv_result where
  rc : Int
  hdr : Bytes
  body : Bytes
  deriving DecidableEq, Repr

/-! ## The functions of `rep.c` -/

/-- The function `nn_rep_init`: `self` is the freshly allocated structure,
`xrep_init_rc` the return code of `nn_xrep_init`.  Returns the code and the
structure afterwards. -/
def nn_rep_init (self : nn_rep) (xrep_init_rc : Int) : Int × nn_rep :=
  let rc := xrep_init_rc
  if rc < 0 then
    (rc, self)
  else
    (0, { self with flags := 0 })

/-- Modelled from the spec: `utils/alloc.c` is missing from the sources.  The
memory `nn_alloc` returns for a `struct nn_rep`: `flags` holds an indeterminate
32-bit value, `backtrace` was never initialised. -/
def nn_alloc (garbage : Nat) : nn_rep :=
  { flags := garbage % 4294967296, backtrace := .uninit }

/-- The function `nn_rep_create`: `alloc` is the structure as `nn_alloc` hands
it over (the allocation is taken to succeed, as `alloc_assert` demands),
`xrep_init_rc` the return code of `nn_xrep_init`.  Returns the code and the
socket stored into `*sockbase`, if any. -/
def nn_rep_create (alloc : nn_rep) (xrep_init_rc : Int) : Int × Option nn_rep :=
  let r := nn_rep_init alloc xrep_init_rc
  if r.1 < 0 then
    (r.1, none)
  else
    (0, some r.2)

/-- The function `nn_rep_events`; `xrep_events` is the mask returned by
`nn_xrep_events`. -/
def nn_rep_events (rep : nn_rep) (xrep_events : Int) : Int :=
  let events := xrep_events
  if rep.flags &&& NN_REP_INPROGRESS = 0 then
    Int.land events (Int.lnot NN_SOCKBASE_EVENT_OUT)
  else
    events

/-- The result of one call of `nn_rep_events` with the socket state threaded
through: the mask returned, the socket state afterwards, and the effects. -/
structure EventsCall where
  events : Int
  rep : nn_rep
  trace : List Effect
  deriving DecidableEq, Repr

/-- The function `nn_rep_events` as a state transformer, statement by
statement as `nn_rep_send` and `nn_rep_recv` are embedded: besides the mask it
yields the structure `*rep` as the call leaves it and the effects of the call.
`xrep_events` is the mask returned by `nn_xrep_events`. -/
def nn_rep_events_call (rep : nn_rep) (xrep_events : Int) : EventsCall :=
  let t0 : List Effect := []
  let events := xrep_events
  if rep.flags &&& NN_REP_INPROGRESS = 0 then
    let events1 := Int.land events (Int.lnot NN_SOCKBASE_EVENT_OUT)
    { events := events1, rep := rep, trace := t0 }
  else
    { events := events, rep := rep, trace := t0 }

/-- The function `nn_rep_send`; `xrep_send_rc` is the code `nn_xrep_send`
returns if it is invoked. -/
def nn_rep_send (rep : nn_rep) (msg : nn_msg) (xrep_send_rc : Int) : Call :=
  -- If no request was received, there's nowhere to send the reply to.
  if rep.flags &&& NN_REP_INPROGRESS = 0 then
    { outcome := .ret (-EFSM), rep := rep, msg := msg, trace := [] }
  -- Move the stored backtrace into the message header.
  else if nn_chunkref_size msg.hdr ≠ 0 then
    { outcome := .assert_failed, rep := rep, msg := msg, trace := [] }
  else
    let t1 := [Effect.chunkref_term msg.hdr]
    let msg1 : nn_msg := { msg with hdr := nn_chunkref_term msg.hdr }
    let mv := nn_chunkref_mv rep.backtrace
    let msg2 : nn_msg := { msg1 with hdr := mv.1 }
    let rep1 : nn_rep :=
      { flags := rep.flags &&& uint32_not NN_REP_INPROGRESS, backtrace := mv.2 }
    -- Send the reply. If it cannot be sent because of pushback, drop it silently.
    let rc := xrep_send_rc
    let t2 := t1 ++ [Effect.xrep_send msg2]
    if rc = 0 ∨ rc = -EAGAIN then
      { outcome := .ret 0, rep := rep1, msg := msg2, trace := t2 }
    else
      { outcome := .assert_failed, rep := rep1, msg := msg2, trace := t2 }

/-- The function `nn_rep_recv`; `raw` is what `nn_xrep_recv` reports. -/
def nn_rep_recv (rep : nn_rep) (msg : nn_msg) (raw : nn_xrep_recv_result) : Call :=
  -- If a request is already being processed, cancel it.
  let rep1 : nn_rep :=
    if rep.flags &&& NN_REP_INPROGRESS ≠ 0 then
      { flags := rep.flags &&& uint32_not NN_REP_INPROGRESS,
        backtrace := nn_chunkref_term rep.backtrace }
    else rep
  let t1 : List Effect :=
    if rep.flags &&& NN_REP_INPROGRESS ≠ 0 then [Effect.chunkref_term rep.backtrace]
    else []
  -- Receive the request.
  let rc := raw.rc
  let t2 := t1 ++ [Effect.xrep_recv]
  if rc = -EAGAIN then
    { outcome := .ret (-EAGAIN), rep := rep1, msg := msg, trace := t2 }
  else if rc ≠ 0 then
    { outcome := .assert_failed, rep := rep1, msg := msg, trace := t2 }
  else
    let msg1 : nn_msg := { hdr := .live raw.hdr, body := .live raw.body }
    -- Store the backtrace.
    let mv := nn_chunkref_mv msg1.hdr
    let msg2 : nn_msg := { msg1 with hdr := nn_chunkref_init 0 }
    let rep2 : nn_rep :=
      { flags := (rep1.flags ||| NN_REP_INPROGRESS) % 4294967296, backtrace := mv.1 }
    { outcome := .ret 0, rep := rep2, msg := msg2, trace := t2 }

/-! ## Vocabulary of the properties -/

/-- A request is pending: `NN_REP_INPROGRESS` is set. -/
def inprogress (rep : nn_rep) : Prop := rep.flags &&& NN_REP_INPROGRESS ≠ 0

instance (rep : nn_rep) : Decidable (inprogress rep) := by
  unfold inprogress; infer_instance

/-- The messages handed to `nn_xrep_send` in a trace, in order. -/
def sent : List Effect → List nn_msg
  | [] => []
  | .xrep_send m :: t => m :: sent t
  | _ :: t => sent t

/-- The references released by `nn_chunkref_term` in a trace, in order, each in
the state in which the call found it. -/
def released : List Effect → List nn_chunkref
  | [] => []
  | .chunkref_term c :: t => c :: released t
  | _ :: t => released t

/-! ## Sequences of calls -/

/-- One call on the socket together with what the raw layer reports in it. -/
inductive Op where
  | recv (msg : nn_msg) (raw : nn_xrep_recv_result) : Op
  | send (msg : nn_msg) (xrep_send_rc : Int) : Op
  | events (xrep_events : Int) : Op
  deriving DecidableEq, Repr

/-- A completed run: the socket state, the effects of all calls in order, and
each call with the value it returned. -/
structure Run where
  rep : nn_rep
  trace : List Effect
  log : List (Op × Int)
  deriving DecidableEq, Repr

/-- Prepends the outcome of a first call to the run of the remaining calls. -/
def Run.after (op : Op) (rc : Int) (t : List Effect) (r : Run) : Run :=
  { rep := r.rep, trace := t ++ r.trace, log := (op, rc) :: r.log }

/-- Runs the calls in order from state `rep`; `none` when an assertion fails on
the way (the process is aborted). -/
def exec (rep : nn_rep) : List Op → Option Run
  | [] => some { rep := rep, trace := [], log := [] }
  | .recv m raw :: ops =>
    match (nn_rep_recv rep m raw).outcome with
    | .assert_failed => none
    | .ret rc =>
      (exec (nn_rep_recv rep m raw).rep ops).map
        (Run.after (.recv m raw) rc (nn_rep_recv rep m raw).trace)
  | .send m c :: ops =>
    match (nn_rep_send rep m c).outcome with
    | .assert_failed => none
    | .ret rc =>
      (exec (nn_rep_send rep m c).rep ops).map
        (Run.after (.send m c) rc (nn_rep_send rep m c).trace)
  | .events e :: ops =>
    (exec rep ops).map (Run.after (.events e) (nn_rep_events rep e) [])

/-- A state is reachable when some sequence of calls leads to it from a socket
that `nn_rep_create` has just produced. -/
def Reachable (s : nn_rep) : Prop :=
  ∃ (garbage : Nat) (xrep_init_rc : Int) (s0 : nn_rep) (ops : List Op) (r : Run),
    nn_rep_create (nn_alloc garbage) xrep_init_rc = (0, some s0) ∧
    exec s0 ops = some r ∧ r.rep = s

/-- The routing tokens delivered by the successful `recv` calls of a sequence,
in order. -/
def delivered : List Op → List Bytes
  | [] => []
  | .recv _ raw :: ops => if raw.rc = 0 then raw.hdr :: delivered ops else delivered ops
  | _ :: ops => delivered ops

/-- A call that delivers no request: a `send`, an `events`, or a `recv` in
which the raw layer reports would-block. -/
def Op.noRequest : Op → Prop
  | .recv _ raw => raw.rc = -EAGAIN
  | _ => True

instance (op : Op) : Decidable op.noRequest := by
  cases op <;> unfold Op.noRequest <;> infer_instance

/-- The reference the socket is answerable for: its backtrace while
`NN_REP_INPROGRESS` is set, nothing otherwise. -/
def pending (rep : nn_rep) : List nn_chunkref :=
  if rep.flags &&& NN_REP_INPROGRESS ≠ 0 then [rep.backtrace] else []

/-- The C test `events & mask`: some bit of `mask` is set in `events`. -/
def event_set (events mask : Int) : Prop := Int.land events mask ≠ 0

instance (events mask : Int) : Decidable (event_set events mask) := by
  unfold event_set; infer_instance

/-- The sequence of `recv` calls given by the caller's buffers and the raw
layer's reports. -/
def recvOps (calls : List (nn_msg × nn_xrep_recv_result)) : List Op :=
  calls.map (fun c => Op.recv c.1 c.2)

/-- The global invariant of the data model: the backtrace is a live token
exactly when `NN_REP_INPROGRESS` is set. -/
def token_iff_flag (rep : nn_rep) : Prop :=
  rep.backtrace.isLive = true ↔ inprogress rep

instance (rep : nn_rep) : Decidable (token_iff_flag rep) := by
  unfold token_iff_flag; infer_instance

/-- The run made of a first run followed by a second one. -/
def Run.append (r1 r2 : Run) : Run :=
  { rep := r2.rep, trace := r1.trace ++ r2.trace, log := r1.log ++ r2.log }

/-! ## Destruction -/

/-- The function `nn_rep_term`: releases the backtrace when a request is
pending, then terminates the embedded raw socket (`nn_xrep_term`, which acts on
the raw layer only).  Returns the structure afterwards and the effects. -/
def nn_rep_term (self : nn_rep) : nn_rep × List Effect :=
  if self.flags &&& NN_REP_INPROGRESS ≠ 0 then
    ({ self with backtrace := nn_chunkref_term self.backtrace },
     [Effect.chunkref_term self.backtrace])
  else
    (self, [])

/-- The function `nn_rep_destroy`: `nn_rep_term` followed by `nn_free`.  The
structure no longer exists afterwards; what remains are the effects. -/
def nn_rep_destroy (rep : nn_rep) : List Effect :=
  (nn_rep_term rep).2

/-- The headers of the caller's reply messages that `nn_rep_send` released
before attaching the token: one for each `send` of the log that returned 0. -/
def replyHeaders : List (Op × Int) → List nn_chunkref
  | [] => []
  | (.send m _, rc) :: t => if rc = 0 then m.hdr :: replyHeaders t else replyHeaders t
  | _ :: t => replyHeaders t

/-! ## Auxiliary facts -/

theorem and_one_uint32_not (n : Nat) :
    (n &&& uint32_not NN_REP_INPROGRESS) &&& NN_REP_INPROGRESS = 0 := by
  rw [Nat.and_assoc]
  have h : uint32_not NN_REP_INPROGRESS &&& NN_REP_INPROGRESS = 0 := by decide
  rw [h, Nat.and_zero]

theorem or_one_and_one (n : Nat) :
    ((n ||| NN_REP_INPROGRESS) % 4294967296) &&& NN_REP_INPROGRESS = 1 := by
  unfold NN_REP_INPROGRESS
  rw [Nat.and_one_is_mod, Nat.mod_mod_of_dvd _ (by decide : 2 ∣ 4294967296)]
  rw [← Nat.and_one_is_mod, Nat.and_distrib_right]
  have h : (1 : Nat) &&& 1 = 1 := by decide
  rw [h, Nat.and_one_is_mod]
  rcases Nat.mod_two_eq_zero_or_one n with h0 | h1
  · rw [h0]; decide
  · rw [h1]; decide

theorem exec_idle_noRequest (s : nn_rep) (hs : ¬ inprogress s) (ops : List Op)
    (hops : ∀ op ∈ ops, op.noRequest) :
    ∃ r : Run, exec s ops = some r ∧ r.rep = s ∧ sent r.trace = [] ∧
      released r.trace = [] ∧
      ∀ m c rc, (Op.send m c, rc) ∈ r.log → rc = -EFSM := by
  have hz : s.flags &&& NN_REP_INPROGRESS = 0 := by
    unfold inprogress at hs
    exact not_not.mp hs
  induction ops with
  | nil => exact ⟨_, rfl, rfl, rfl, rfl, by simp⟩
  | cons op ops ih =>
    obtain ⟨r, hr, hrep, hsent, hrel, hlog⟩ :=
      ih (fun o ho => hops o (List.mem_cons_of_mem _ ho))
    have hop := hops op (List.mem_cons_self _ _)
    cases op with
    | recv m raw =>
      have hrc : raw.rc = -EAGAIN := hop
      have hcall : nn_rep_recv s m raw =
          { outcome := .ret (-EAGAIN), rep := s, msg := m, trace := [Effect.xrep_recv] } := by
        simp [nn_rep_recv, hz, hrc]
      refine ⟨Run.after (.recv m raw) (-EAGAIN) [Effect.xrep_recv] r, ?_, ?_, ?_, ?_, ?_⟩
      · simp [exec, hcall, hr]
      · simpa [Run.after] using hrep
      · simpa [Run.after, sent] using hsent
      · simpa [Run.after, released] using hrel
      · intro m1 c1 rc1 hmem
        simp [Run.after] at hmem
        exact hlog m1 c1 rc1 hmem
    | send m c =>
      have hcall : nn_rep_send s m c =
          { outcome := .ret (-EFSM), rep := s, msg := m, trace := [] } := by
        simp [nn_rep_send, hz]
      refine ⟨Run.after (.send m c) (-EFSM) [] r, ?_, ?_, ?_, ?_, ?_⟩
      · simp [exec, hcall, hr]
      · simpa [Run.after] using hrep
      · simpa [Run.after] using hsent
      · simpa [Run.after] using hrel
      · intro m1 c1 rc1 hmem
        simp [Run.after] at hmem
        rcases hmem with h | h
        · exact h.2
        · exact hlog m1 c1 rc1 h
    | events e =>
      refine ⟨Run.after (.events e) (nn_rep_events s e) [] r, ?_, ?_, ?_, ?_, ?_⟩
      · simp [exec, hr]
      · simpa [Run.after] using hrep
      · simpa [Run.after] using hsent
      · simpa [Run.after] using hrel
      · intro m1 c1 rc1 hmem
        simp [Run.after] at hmem
        exact hlog m1 c1 rc1 hmem

theorem isLive_mv_snd (c : nn_chunkref) : (nn_chunkref_mv c).2.isLive = false := by
  cases c <;> rfl

theorem nn_rep_send_pending (rep : nn_rep) (msg : nn_msg) (rc : Int)
    (h : inprogress rep) (hhdr : nn_chunkref_size msg.hdr = 0)
    (hrc : rc = 0 ∨ rc = -EAGAIN) :
    nn_rep_send rep msg rc =
      { outcome := .ret 0,
        rep := { flags := rep.flags &&& uint32_not NN_REP_INPROGRESS,
                 backtrace := (nn_chunkref_mv rep.backtrace).2 },
        msg := { hdr := (nn_chunkref_mv rep.backtrace).1, body := msg.body },
        trace := [Effect.chunkref_term msg.hdr,
                  Effect.xrep_send { hdr := (nn_chunkref_mv rep.backtrace).1,
                                     body := msg.body }] } := by
  have hf : ¬ (rep.flags &&& NN_REP_INPROGRESS = 0) := h
  simp [nn_rep_send, hf, hhdr, hrc]

theorem EAGAIN_ne_zero : ¬ (EAGAIN = 0) := by decide

theorem zero_ne_neg_EAGAIN : ¬ ((0 : Int) = -EAGAIN) := by decide

theorem nn_rep_recv_ret_zero (rep : nn_rep) (msg : nn_msg) (raw : nn_xrep_recv_result) :
    (nn_rep_recv rep msg raw).outcome = .ret 0 ↔ raw.rc = 0 := by
  unfold nn_rep_recv
  by_cases h1 : raw.rc = -EAGAIN
  · have h2 : raw.rc ≠ 0 := by rw [h1]; decide
    simp [h1, EAGAIN_ne_zero]
  · by_cases h2 : raw.rc = 0
    · simp [h2, EAGAIN_ne_zero, zero_ne_neg_EAGAIN]
    · simp [h1, h2]

theorem nn_rep_recv_delivers (rep : nn_rep) (msg : nn_msg) (raw : nn_xrep_recv_result)
    (h : raw.rc = 0) :
    (nn_rep_recv rep msg raw).outcome = .ret 0 ∧
    (nn_rep_recv rep msg raw).rep.backtrace = .live raw.hdr ∧
    inprogress (nn_rep_recv rep msg raw).rep ∧
    (nn_rep_recv rep msg raw).msg = { hdr := .live [], body := .live raw.body } ∧
    (nn_rep_recv rep msg raw).trace =
      (pending rep).map Effect.chunkref_term ++ [Effect.xrep_recv] := by
  refine ⟨?_, ?_, ?_, ?_, ?_⟩
  · simp [nn_rep_recv, h, EAGAIN_ne_zero, zero_ne_neg_EAGAIN]
  · simp [nn_rep_recv, h, nn_chunkref_mv, EAGAIN_ne_zero, zero_ne_neg_EAGAIN]
  · unfold inprogress
    simp only [nn_rep_recv, h, zero_ne_neg_EAGAIN, if_false, ne_eq, not_true_eq_false]
    rw [or_one_and_one]
    decide
  · simp [nn_rep_recv, h, nn_chunkref_init, EAGAIN_ne_zero, zero_ne_neg_EAGAIN]
  · by_cases hf : rep.flags &&& NN_REP_INPROGRESS = 0
    · simp [nn_rep_recv, h, pending, hf, EAGAIN_ne_zero, zero_ne_neg_EAGAIN]
    · simp [nn_rep_recv, h, pending, hf, EAGAIN_ne_zero, zero_ne_neg_EAGAIN]

theorem two_testBit (k : Nat) : Nat.testBit 2 k = decide (1 = k) := by
  have h := @Nat.testBit_two_pow 1 k
  simpa using h

theorem land_two_ne_zero_iff (x : Int) : Int.land x 2 ≠ 0 ↔ Int.testBit x 1 = true := by
  cases x with
  | ofNat n =>
    have h1 : Int.land (Int.ofNat n) 2 = Int.ofNat (n &&& 2) := rfl
    have h2 : Int.testBit (Int.ofNat n) 1 = n.testBit 1 := rfl
    have h3 : n &&& 2 = (n.testBit 1).toNat * 2 := by
      have := Nat.and_two_pow n 1
      simpa using this
    rw [h1, h2, h3]
    cases n.testBit 1 <;> simp
  | negSucc n =>
    have h1 : Int.land (Int.negSucc n) 2 = Int.ofNat (Nat.ldiff 2 n) := rfl
    have h2 : Int.testBit (Int.negSucc n) 1 = !(n.testBit 1) := rfl
    rw [h1, h2]
    cases hb : n.testBit 1
    · simp only [Bool.not_false, iff_true]
      intro h0
      have h0n : Nat.ldiff 2 n = 0 := Int.ofNat.inj h0
      have := Nat.testBit_ldiff 2 n 1
      rw [h0n, hb, two_testBit] at this
      simp at this
    · simp only [Bool.not_true, Bool.false_eq_true, iff_false, not_not]
      have : Nat.ldiff 2 n = 0 := by
        apply Nat.zero_of_testBit_eq_false
        intro i
        rw [Nat.testBit_ldiff, two_testBit]
        by_cases hi : 1 = i
        · subst hi; simp [hb]
        · simp [hi]
      rw [this]; rfl

theorem event_set_out_iff (x : Int) :
    event_set x NN_SOCKBASE_EVENT_OUT ↔ Int.testBit x 1 = true :=
  land_two_ne_zero_iff x

theorem nn_rep_recv_wouldblock_idle (rep : nn_rep) (msg : nn_msg)
    (raw : nn_xrep_recv_result) (h : raw.rc = -EAGAIN) (hi : ¬ inprogress rep) :
    nn_rep_recv rep msg raw =
      { outcome := .ret (-EAGAIN), rep := rep, msg := msg, trace := [Effect.xrep_recv] } := by
  have hz : rep.flags &&& NN_REP_INPROGRESS = 0 := by
    unfold inprogress at hi
    exact not_not.mp hi
  simp [nn_rep_recv, hz, h]

theorem nn_rep_recv_wouldblock_pending (rep : nn_rep) (msg : nn_msg)
    (raw : nn_xrep_recv_result) (h : raw.rc = -EAGAIN) (hp : inprogress rep) :
    nn_rep_recv rep msg raw =
      { outcome := .ret (-EAGAIN),
        rep := { flags := rep.flags &&& uint32_not NN_REP_INPROGRESS,
                 backtrace := .termed },
        msg := msg,
        trace := [Effect.chunkref_term rep.backtrace, Effect.xrep_recv] } := by
  have hz : ¬ (rep.flags &&& NN_REP_INPROGRESS = 0) := hp
  simp [nn_rep_recv, hz, h, nn_chunkref_term]

theorem not_inprogress_cleared (n : Nat) (c : nn_chunkref) :
    ¬ inprogress { flags := n &&& uint32_not NN_REP_INPROGRESS, backtrace := c } := by
  unfold inprogress
  simp only [ne_eq, not_not]
  exact and_one_uint32_not n

theorem sent_append (a b : List Effect) : sent (a ++ b) = sent a ++ sent b := by
  induction a with
  | nil => rfl
  | cons e t ih => cases e <;> simp [sent, ih]

theorem released_append (a b : List Effect) :
    released (a ++ b) = released a ++ released b := by
  induction a with
  | nil => rfl
  | cons e t ih => cases e <;> simp [released, ih]

theorem exec_recv_cons (s : nn_rep) (m : nn_msg) (raw : nn_xrep_recv_result)
    (ops : List Op) (r : Run) (h : exec s (.recv m raw :: ops) = some r) :
    ∃ rc r1, (nn_rep_recv s m raw).outcome = .ret rc ∧
      exec (nn_rep_recv s m raw).rep ops = some r1 ∧
      r = Run.after (.recv m raw) rc (nn_rep_recv s m raw).trace r1 := by
  simp only [exec] at h
  cases hout : (nn_rep_recv s m raw).outcome with
  | assert_failed =>
    rw [hout] at h
    simp at h
  | ret rc =>
    rw [hout] at h
    simp only [Option.map_eq_some'] at h
    obtain ⟨r1, h1, h2⟩ := h
    exact ⟨rc, r1, rfl, h1, h2.symm⟩

theorem exec_send_cons (s : nn_rep) (m : nn_msg) (c : Int)
    (ops : List Op) (r : Run) (h : exec s (.send m c :: ops) = some r) :
    ∃ rc r1, (nn_rep_send s m c).outcome = .ret rc ∧
      exec (nn_rep_send s m c).rep ops = some r1 ∧
      r = Run.after (.send m c) rc (nn_rep_send s m c).trace r1 := by
  simp only [exec] at h
  cases hout : (nn_rep_send s m c).outcome with
  | assert_failed =>
    rw [hout] at h
    simp at h
  | ret rc =>
    rw [hout] at h
    simp only [Option.map_eq_some'] at h
    obtain ⟨r1, h1, h2⟩ := h
    exact ⟨rc, r1, rfl, h1, h2.symm⟩

theorem exec_events_cons (s : nn_rep) (e : Int)
    (ops : List Op) (r : Run) (h : exec s (.events e :: ops) = some r) :
    ∃ r1, exec s ops = some r1 ∧
      r = Run.after (.events e) (nn_rep_events s e) [] r1 := by
  simp only [exec, Option.map_eq_some'] at h
  obtain ⟨r1, h1, h2⟩ := h
  exact ⟨r1, h1, h2.symm⟩

theorem token_iff_flag_recv (s : nn_rep) (m : nn_msg) (raw : nn_xrep_recv_result)
    (rc : Int) (hs : token_iff_flag s) (hout : (nn_rep_recv s m raw).outcome = .ret rc) :
    token_iff_flag (nn_rep_recv s m raw).rep := by
  by_cases h1 : raw.rc = -EAGAIN
  · by_cases hp : inprogress s
    · rw [nn_rep_recv_wouldblock_pending s m raw h1 hp]
      unfold token_iff_flag
      constructor
      · intro hl
        cases hl
      · intro hq
        exact absurd hq (not_inprogress_cleared _ _)
    · rw [nn_rep_recv_wouldblock_idle s m raw h1 hp]
      exact hs
  · by_cases h2 : raw.rc = 0
    · obtain ⟨_, hbt, hin, _, _⟩ := nn_rep_recv_delivers s m raw h2
      unfold token_iff_flag
      rw [hbt]
      exact ⟨fun _ => hin, fun _ => rfl⟩
    · simp [nn_rep_recv, h1, h2] at hout

theorem token_iff_flag_send (s : nn_rep) (m : nn_msg) (c : Int)
    (hs : token_iff_flag s) : token_iff_flag (nn_rep_send s m c).rep := by
  by_cases hz : s.flags &&& NN_REP_INPROGRESS = 0
  · have : (nn_rep_send s m c).rep = s := by simp [nn_rep_send, hz]
    rw [this]
    exact hs
  · by_cases hh : nn_chunkref_size m.hdr = 0
    · have hrep : (nn_rep_send s m c).rep =
          { flags := s.flags &&& uint32_not NN_REP_INPROGRESS,
            backtrace := (nn_chunkref_mv s.backtrace).2 } := by
        by_cases hc : c = 0 ∨ c = -EAGAIN
        · simp [nn_rep_send, hz, hh, hc]
        · simp [nn_rep_send, hz, hh, hc]
      rw [hrep]
      unfold token_iff_flag
      constructor
      · intro hl
        rw [isLive_mv_snd] at hl
        cases hl
      · intro hq
        exact absurd hq (not_inprogress_cleared _ _)
    · have : (nn_rep_send s m c).rep = s := by simp [nn_rep_send, hz, hh]
      rw [this]
      exact hs

theorem token_iff_flag_exec (ops : List Op) :
    ∀ (s : nn_rep) (r : Run), token_iff_flag s → exec s ops = some r →
      token_iff_flag r.rep := by
  induction ops with
  | nil =>
    intro s r hs h
    simp only [exec, Option.some.injEq] at h
    rw [← h]
    exact hs
  | cons op ops ih =>
    intro s r hs h
    cases op with
    | recv m raw =>
      obtain ⟨rc, r1, hout, h1, hr⟩ := exec_recv_cons s m raw ops r h
      rw [hr]
      exact ih _ r1 (token_iff_flag_recv s m raw rc hs hout) h1
    | send m c =>
      obtain ⟨rc, r1, _, h1, hr⟩ := exec_send_cons s m c ops r h
      rw [hr]
      exact ih _ r1 (token_iff_flag_send s m c hs) h1
    | events e =>
      obtain ⟨r1, h1, hr⟩ := exec_events_cons s e ops r h
      rw [hr]
      exact ih _ r1 hs h1

theorem nn_rep_create_ok (garbage : Nat) (xrep_init_rc : Int) (s0 : nn_rep)
    (h : nn_rep_create (nn_alloc garbage) xrep_init_rc = (0, some s0)) :
    s0 = { flags := 0, backtrace := .uninit } := by
  unfold nn_rep_create nn_rep_init nn_alloc at h
  by_cases hneg : xrep_init_rc < 0
  · simp [hneg] at h
  · simp [hneg] at h
    exact h.symm

theorem nn_chunkref_mv_fst (c : nn_chunkref) : (nn_chunkref_mv c).1 = c := by
  cases c <;> rfl

theorem pending_idle (s : nn_rep) (h : ¬ inprogress s) : pending s = [] := by
  have hz : s.flags &&& NN_REP_INPROGRESS = 0 := by
    unfold inprogress at h
    exact not_not.mp h
  simp [pending, hz]

theorem pending_inprogress (s : nn_rep) (h : inprogress s) :
    pending s = [s.backtrace] := by
  have hz : ¬ (s.flags &&& NN_REP_INPROGRESS = 0) := h
  simp [pending, hz]

theorem nn_rep_recv_step (s : nn_rep) (m : nn_msg) (raw : nn_xrep_recv_result)
    (h : raw.rc = 0 ∨ raw.rc = -EAGAIN) :
    (nn_rep_recv s m raw).outcome = .ret raw.rc ∧
    sent (nn_rep_recv s m raw).trace = [] ∧
    released (nn_rep_recv s m raw).trace = pending s ∧
    pending (nn_rep_recv s m raw).rep =
      (if raw.rc = 0 then [.live raw.hdr] else []) := by
  rcases h with h0 | h1
  · obtain ⟨hout, hbt, hin, _, htr⟩ := nn_rep_recv_delivers s m raw h0
    refine ⟨by rw [hout, h0], ?_, ?_, ?_⟩
    · rw [htr, sent_append]
      have : sent ((pending s).map Effect.chunkref_term) = [] := by
        unfold pending
        split <;> rfl
      rw [this]
      rfl
    · rw [htr, released_append]
      have : released ((pending s).map Effect.chunkref_term) = pending s := by
        unfold pending
        split <;> rfl
      rw [this]
      simp [released]
    · rw [pending_inprogress _ hin, hbt, if_pos h0]
  · have hne : ¬ (raw.rc = 0) := by rw [h1]; decide
    by_cases hp : inprogress s
    · rw [nn_rep_recv_wouldblock_pending s m raw h1 hp, if_neg hne]
      refine ⟨by rw [h1], rfl, ?_, ?_⟩
      · rw [pending_inprogress s hp]
        rfl
      · exact pending_idle _ (not_inprogress_cleared _ _)
    · rw [nn_rep_recv_wouldblock_idle s m raw h1 hp, if_neg hne]
      refine ⟨by rw [h1], rfl, ?_, ?_⟩
      · rw [pending_idle s hp]
        rfl
      · exact pending_idle s hp

theorem nn_rep_recv_ret (s : nn_rep) (m : nn_msg) (raw : nn_xrep_recv_result)
    (rc : Int) (hout : (nn_rep_recv s m raw).outcome = .ret rc) :
    raw.rc = 0 ∨ raw.rc = -EAGAIN := by
  by_cases h1 : raw.rc = -EAGAIN
  · exact Or.inr h1
  · by_cases h2 : raw.rc = 0
    · exact Or.inl h2
    · simp [nn_rep_recv, h1, h2] at hout

theorem nn_rep_send_ret (s : nn_rep) (m : nn_msg) (c rc : Int)
    (hout : (nn_rep_send s m c).outcome = .ret rc) :
    (¬ inprogress s ∧ (nn_rep_send s m c).rep = s ∧
      (nn_rep_send s m c).trace = [] ∧ rc = -EFSM) ∨
    (inprogress s ∧
      sent (nn_rep_send s m c).trace = [{ hdr := s.backtrace, body := m.body }] ∧
      released (nn_rep_send s m c).trace = [m.hdr] ∧
      ¬ inprogress (nn_rep_send s m c).rep ∧ rc = 0) := by
  by_cases hp : inprogress s
  · right
    have hz : ¬ (s.flags &&& NN_REP_INPROGRESS = 0) := hp
    by_cases hh : nn_chunkref_size m.hdr = 0
    · by_cases hc : c = 0 ∨ c = -EAGAIN
      · rw [nn_rep_send_pending s m c hp hh hc] at hout ⊢
        refine ⟨hp, ?_, ?_, not_inprogress_cleared _ _, ?_⟩
        · simp [sent, nn_chunkref_mv_fst]
        · simp [released]
        · simp only [Exit.ret.injEq] at hout
          exact hout.symm
      · simp [nn_rep_send, hz, hh, hc] at hout
    · simp [nn_rep_send, hz, hh] at hout
  · left
    have hz : s.flags &&& NN_REP_INPROGRESS = 0 := by
      unfold inprogress at hp
      exact not_not.mp hp
    have hcall : nn_rep_send s m c =
        { outcome := .ret (-EFSM), rep := s, msg := m, trace := [] } := by
      simp [nn_rep_send, hz]
    rw [hcall] at hout ⊢
    simp only [Exit.ret.injEq] at hout
    exact ⟨hp, rfl, rfl, hout.symm⟩

theorem sent_sublist_delivered (ops : List Op) :
    ∀ (s : nn_rep) (r : Run), exec s ops = some r →
      List.Sublist ((sent r.trace).map nn_msg.hdr)
        (pending s ++ (delivered ops).map nn_chunkref.live) := by
  induction ops with
  | nil =>
    intro s r h
    simp only [exec, Option.some.injEq] at h
    rw [← h]
    simp [sent]
  | cons op ops ih =>
    intro s r h
    cases op with
    | recv m raw =>
      obtain ⟨rc, r1, hout, h1, hr⟩ := exec_recv_cons s m raw ops r h
      obtain ⟨_, hsent, _, hpend⟩ :=
        nn_rep_recv_step s m raw (nn_rep_recv_ret s m raw rc hout)
      have ih1 := ih _ r1 h1
      rw [hpend] at ih1
      rw [hr]
      simp only [Run.after, sent_append, hsent, List.nil_append, delivered]
      by_cases h0 : raw.rc = 0
      · rw [if_pos h0] at ih1 ⊢
        exact List.Sublist.trans ih1 (List.sublist_append_right _ _)
      · rw [if_neg h0] at ih1 ⊢
        exact List.Sublist.trans ih1 (List.sublist_append_right _ _)
    | send m c =>
      obtain ⟨rc, r1, hout, h1, hr⟩ := exec_send_cons s m c ops r h
      have ih1 := ih _ r1 h1
      rw [hr]
      simp only [Run.after, sent_append, delivered]
      rcases nn_rep_send_ret s m c rc hout with ⟨_, hrep, htr, _⟩ | ⟨hp, hsent, _, hidle, _⟩
      · rw [hrep] at ih1
        rw [htr]
        exact ih1
      · rw [pending_idle _ hidle] at ih1
        rw [hsent, pending_inprogress s hp]
        simpa using ih1
    | events e =>
      obtain ⟨r1, h1, hr⟩ := exec_events_cons s e ops r h
      rw [hr]
      simpa [Run.after, delivered] using ih s r1 h1

theorem nn_rep_send_efsm (s : nn_rep) (m : nn_msg) (c : Int) (h : ¬ inprogress s) :
    nn_rep_send s m c =
      { outcome := .ret (-EFSM), rep := s, msg := m, trace := [] } := by
  have hz : s.flags &&& NN_REP_INPROGRESS = 0 := by
    unfold inprogress at h
    exact not_not.mp h
  simp [nn_rep_send, hz]

theorem Run.after_append (op : Op) (rc : Int) (t : List Effect) (r1 r2 : Run) :
    (Run.after op rc t r1).append r2 = Run.after op rc t (r1.append r2) := by
  simp [Run.after, Run.append, List.append_assoc]

theorem exec_cons_recv (s : nn_rep) (m : nn_msg) (raw : nn_xrep_recv_result)
    (ops : List Op) :
    exec s (.recv m raw :: ops) =
      match (nn_rep_recv s m raw).outcome with
      | .assert_failed => none
      | .ret rc =>
        (exec (nn_rep_recv s m raw).rep ops).map
          (Run.after (.recv m raw) rc (nn_rep_recv s m raw).trace) := rfl

theorem exec_cons_send (s : nn_rep) (m : nn_msg) (c : Int) (ops : List Op) :
    exec s (.send m c :: ops) =
      match (nn_rep_send s m c).outcome with
      | .assert_failed => none
      | .ret rc =>
        (exec (nn_rep_send s m c).rep ops).map
          (Run.after (.send m c) rc (nn_rep_send s m c).trace) := rfl

theorem exec_cons_events (s : nn_rep) (e : Int) (ops : List Op) :
    exec s (.events e :: ops) =
      (exec s ops).map (Run.after (.events e) (nn_rep_events s e) []) := rfl

theorem exec_append_aux (f : Run → Run) (hf : ∀ r, (f r).rep = r.rep)
    (hfa : ∀ r1 r2 : Run, (f r1).append r2 = f (r1.append r2))
    (b : List Op) (x : Option Run) :
    Option.map f (x.bind (fun r1 => (exec r1.rep b).map (fun r2 => r1.append r2))) =
      (Option.map f x).bind (fun r1 => (exec r1.rep b).map (fun r2 => r1.append r2)) := by
  cases x with
  | none => rfl
  | some r1 =>
    simp only [Option.some_bind, Option.map_some', Option.map_map, hf]
    congr 1
    funext r2
    exact (hfa r1 r2).symm

theorem exec_append (a b : List Op) :
    ∀ s : nn_rep, exec s (a ++ b) =
      (exec s a).bind (fun r1 => (exec r1.rep b).map (fun r2 => r1.append r2)) := by
  induction a with
  | nil =>
    intro s
    simp only [List.nil_append, exec, Option.some_bind]
    cases exec s b with
    | none => rfl
    | some r2 => simp [Run.append]
  | cons op a ih =>
    intro s
    cases op with
    | recv m raw =>
      rw [List.cons_append, exec_cons_recv, exec_cons_recv]
      cases (nn_rep_recv s m raw).outcome with
      | assert_failed => rfl
      | ret rc =>
        simp only [ih]
        exact exec_append_aux (Run.after (.recv m raw) rc (nn_rep_recv s m raw).trace)
          (fun _ => rfl) (Run.after_append _ _ _) b _
    | send m c =>
      rw [List.cons_append, exec_cons_send, exec_cons_send]
      cases (nn_rep_send s m c).outcome with
      | assert_failed => rfl
      | ret rc =>
        simp only [ih]
        exact exec_append_aux (Run.after (.send m c) rc (nn_rep_send s m c).trace)
          (fun _ => rfl) (Run.after_append _ _ _) b _
    | events e =>
      rw [List.cons_append, exec_cons_events, exec_cons_events, ih]
      exact exec_append_aux (Run.after (.events e) (nn_rep_events s e) [])
        (fun _ => rfl) (Run.after_append _ _ _) b _

theorem token_iff_flag_delivers (s : nn_rep) (m : nn_msg) (raw : nn_xrep_recv_result)
    (h : raw.rc = 0) : token_iff_flag (nn_rep_recv s m raw).rep := by
  obtain ⟨_, hbt, hin, _, _⟩ := nn_rep_recv_delivers s m raw h
  unfold token_iff_flag
  rw [hbt]
  exact ⟨fun _ => hin, fun _ => rfl⟩

theorem exec_recvOps (calls : List (nn_msg × nn_xrep_recv_result)) :
    ∀ s : nn_rep, (∀ c ∈ calls, c.2.rc = 0 ∨ c.2.rc = -EAGAIN) →
      ∃ r : Run, exec s (recvOps calls) = some r ∧
        sent r.trace = [] ∧
        released r.trace ++ pending r.rep =
          pending s ++ (delivered (recvOps calls)).map nn_chunkref.live ∧
        ((token_iff_flag s ∨ ∃ c ∈ calls, c.2.rc = 0) → token_iff_flag r.rep) := by
  induction calls with
  | nil =>
    intro s _
    refine ⟨{ rep := s, trace := [], log := [] }, rfl, rfl, ?_, ?_⟩
    · simp [released, recvOps, delivered]
    · intro h
      rcases h with h | ⟨c, hc, _⟩
      · exact h
      · cases hc
  | cons c cs ih =>
    intro s hrc
    have hc := hrc c (List.mem_cons_self _ _)
    obtain ⟨hout, hsent, hrel, hpend⟩ := nn_rep_recv_step s c.1 c.2 hc
    obtain ⟨r1, hr1, hsent1, hcons1, hwf1⟩ :=
      ih (nn_rep_recv s c.1 c.2).rep (fun x hx => hrc x (List.mem_cons_of_mem _ hx))
    refine ⟨Run.after (.recv c.1 c.2) c.2.rc (nn_rep_recv s c.1 c.2).trace r1,
      ?_, ?_, ?_, ?_⟩
    · show exec s (Op.recv c.1 c.2 :: recvOps cs) = _
      rw [exec_cons_recv, hout]
      simp only [hr1, Option.map_some']
    · simp only [Run.after, sent_append, hsent, hsent1, List.append_nil]
    · show released ((nn_rep_recv s c.1 c.2).trace ++ r1.trace) ++ pending r1.rep =
        pending s ++ (delivered (Op.recv c.1 c.2 :: recvOps cs)).map nn_chunkref.live
      rw [released_append, hrel, List.append_assoc, hcons1, hpend]
      by_cases h0 : c.2.rc = 0
      · simp [delivered, h0]
      · simp [delivered, h0]
    · intro h
      apply hwf1
      by_cases h0 : c.2.rc = 0
      · exact Or.inl (token_iff_flag_delivers s c.1 c.2 h0)
      · rcases h with h | ⟨x, hx, hx0⟩
        · exact Or.inl (token_iff_flag_recv s c.1 c.2 c.2.rc h hout)
        · rcases List.mem_cons.mp hx with hxc | hxcs
          · rw [hxc] at hx0
            exact absurd hx0 h0
          · exact Or.inr ⟨x, hxcs, hx0⟩

theorem nn_rep_recv_ret_eagain (rep : nn_rep) (msg : nn_msg) (raw : nn_xrep_recv_result) :
    (nn_rep_recv rep msg raw).outcome = .ret (-EAGAIN) ↔ raw.rc = -EAGAIN := by
  by_cases h1 : raw.rc = -EAGAIN
  · simp [nn_rep_recv, h1]
  · by_cases h2 : raw.rc = 0
    · have h3 : ¬ ((0 : Int) = -EAGAIN) := zero_ne_neg_EAGAIN
      simp [nn_rep_recv, h2, h3, EAGAIN_ne_zero]
    · simp [nn_rep_recv, h1, h2]

theorem nn_rep_recv_failed (rep : nn_rep) (msg : nn_msg) (raw : nn_xrep_recv_result) :
    (nn_rep_recv rep msg raw).outcome = .assert_failed ↔
      (raw.rc ≠ 0 ∧ raw.rc ≠ -EAGAIN) := by
  by_cases h1 : raw.rc = -EAGAIN
  · simp [nn_rep_recv, h1]
  · by_cases h2 : raw.rc = 0
    · simp [nn_rep_recv, h2, zero_ne_neg_EAGAIN, EAGAIN_ne_zero]
    · simp [nn_rep_recv, h1, h2]

theorem one_testBit (k : Nat) : Nat.testBit 1 k = decide (0 = k) := by
  have h := @Nat.testBit_two_pow 0 k
  simpa using h

theorem land_one_ne_zero_iff (x : Int) : Int.land x 1 ≠ 0 ↔ Int.testBit x 0 = true := by
  cases x with
  | ofNat n =>
    have h1 : Int.land (Int.ofNat n) 1 = Int.ofNat (n &&& 1) := rfl
    have h2 : Int.testBit (Int.ofNat n) 0 = n.testBit 0 := rfl
    have h3 : n &&& 1 = (n.testBit 0).toNat := by
      have := Nat.and_two_pow n 0
      simpa using this
    rw [h1, h2, h3]
    cases n.testBit 0 <;> simp
  | negSucc n =>
    have h1 : Int.land (Int.negSucc n) 1 = Int.ofNat (Nat.ldiff 1 n) := rfl
    have h2 : Int.testBit (Int.negSucc n) 0 = !(n.testBit 0) := rfl
    rw [h1, h2]
    cases hb : n.testBit 0
    · simp only [Bool.not_false, iff_true]
      intro h0
      have h0n : Nat.ldiff 1 n = 0 := Int.ofNat.inj h0
      have := Nat.testBit_ldiff 1 n 0
      rw [h0n, hb, one_testBit] at this
      simp at this
    · simp only [Bool.not_true, Bool.false_eq_true, iff_false, not_not]
      have : Nat.ldiff 1 n = 0 := by
        apply Nat.zero_of_testBit_eq_false
        intro i
        rw [Nat.testBit_ldiff, one_testBit]
        by_cases hi : 0 = i
        · subst hi; simp [hb]
        · simp [hi]
      rw [this]; rfl

theorem event_set_in_iff (x : Int) :
    event_set x NN_SOCKBASE_EVENT_IN ↔ Int.testBit x 0 = true :=
  land_one_ne_zero_iff x

theorem nn_rep_events_testBit (rep : nn_rep) (e : Int) (k : Nat) :
    Int.testBit (nn_rep_events rep e) k =
      (Int.testBit e k &&
        (decide (inprogress rep) || !Int.testBit NN_SOCKBASE_EVENT_OUT k)) := by
  by_cases h : rep.flags &&& NN_REP_INPROGRESS = 0
  · have hn : ¬ inprogress rep := fun hp => hp h
    have hev : nn_rep_events rep e = Int.land e (Int.lnot NN_SOCKBASE_EVENT_OUT) := by
      simp [nn_rep_events, h]
    rw [hev, Int.testBit_land, Int.testBit_lnot]
    simp [hn]
  · have hp : inprogress rep := h
    have hev : nn_rep_events rep e = e := by
      simp [nn_rep_events, h]
    rw [hev]
    simp [hp]

theorem nn_rep_events_idle_out (rep : nn_rep) (e : Int) (h : ¬ inprogress rep) :
    ¬ event_set (nn_rep_events rep e) NN_SOCKBASE_EVENT_OUT := by
  rw [event_set_out_iff, nn_rep_events_testBit]
  have h2 : Int.testBit NN_SOCKBASE_EVENT_OUT 1 = true := by decide
  simp [h, h2]

theorem flags_recv (s : nn_rep) (m : nn_msg) (raw : nn_xrep_recv_result)
    (hs : s.flags = 0 ∨ s.flags = NN_REP_INPROGRESS) :
    (nn_rep_recv s m raw).rep.flags = 0 ∨
      (nn_rep_recv s m raw).rep.flags = NN_REP_INPROGRESS := by
  by_cases h0 : raw.rc = 0
  · right
    have hf : (nn_rep_recv s m raw).rep.flags =
        ((if s.flags &&& NN_REP_INPROGRESS ≠ 0 then
            s.flags &&& uint32_not NN_REP_INPROGRESS
          else s.flags) ||| NN_REP_INPROGRESS) % 4294967296 := by
      by_cases hz : s.flags &&& NN_REP_INPROGRESS = 0
      · simp [nn_rep_recv, h0, zero_ne_neg_EAGAIN, EAGAIN_ne_zero, hz]
      · simp [nn_rep_recv, h0, zero_ne_neg_EAGAIN, EAGAIN_ne_zero, hz]
    rw [hf]
    rcases hs with h | h <;> rw [h] <;> decide
  · have hf : (nn_rep_recv s m raw).rep.flags =
        (if s.flags &&& NN_REP_INPROGRESS ≠ 0 then
            s.flags &&& uint32_not NN_REP_INPROGRESS
          else s.flags) := by
      by_cases h1 : raw.rc = -EAGAIN
      · by_cases hz : s.flags &&& NN_REP_INPROGRESS = 0
        · simp [nn_rep_recv, h1, hz]
        · simp [nn_rep_recv, h1, hz]
      · by_cases hz : s.flags &&& NN_REP_INPROGRESS = 0
        · simp [nn_rep_recv, h0, h1, hz]
        · simp [nn_rep_recv, h0, h1, hz]
    rw [hf]
    rcases hs with h | h <;> rw [h] <;> decide

theorem flags_send (s : nn_rep) (m : nn_msg) (c : Int)
    (hs : s.flags = 0 ∨ s.flags = NN_REP_INPROGRESS) :
    (nn_rep_send s m c).rep.flags = 0 ∨
      (nn_rep_send s m c).rep.flags = NN_REP_INPROGRESS := by
  have hf : (nn_rep_send s m c).rep.flags = s.flags ∨
      (nn_rep_send s m c).rep.flags = s.flags &&& uint32_not NN_REP_INPROGRESS := by
    by_cases hz : s.flags &&& NN_REP_INPROGRESS = 0
    · left
      simp [nn_rep_send, hz]
    · by_cases hh : nn_chunkref_size m.hdr = 0
      · right
        by_cases hc : c = 0 ∨ c = -EAGAIN
        · simp [nn_rep_send, hz, hh, hc]
        · simp [nn_rep_send, hz, hh, hc]
      · left
        simp [nn_rep_send, hz, hh]
  rcases hf with hf | hf
  · rw [hf]
    exact hs
  · rw [hf]
    rcases hs with h | h <;> rw [h] <;> decide

theorem flags_exec (ops : List Op) :
    ∀ (s : nn_rep) (r : Run), (s.flags = 0 ∨ s.flags = NN_REP_INPROGRESS) →
      exec s ops = some r →
      (r.rep.flags = 0 ∨ r.rep.flags = NN_REP_INPROGRESS) := by
  induction ops with
  | nil =>
    intro s r hs h
    simp only [exec, Option.some.injEq] at h
    rw [← h]
    exact hs
  | cons op ops ih =>
    intro s r hs h
    cases op with
    | recv m raw =>
      obtain ⟨rc, r1, _, h1, hr⟩ := exec_recv_cons s m raw ops r h
      rw [hr]
      exact ih _ r1 (flags_recv s m raw hs) h1
    | send m c =>
      obtain ⟨rc, r1, _, h1, hr⟩ := exec_send_cons s m c ops r h
      rw [hr]
      exact ih _ r1 (flags_send s m c hs) h1
    | events e =>
      obtain ⟨r1, h1, hr⟩ := exec_events_cons s e ops r h
      rw [hr]
      exact ih _ r1 hs h1

theorem pending_live (s : nn_rep) (h : token_iff_flag s) :
    ∀ c ∈ pending s, c.isLive = true := by
  intro c hc
  by_cases hp : inprogress s
  · rw [pending_inprogress s hp, List.mem_singleton] at hc
    rw [hc]
    exact h.mpr hp
  · rw [pending_idle s hp] at hc
    cases hc

theorem ownership_exec (ops : List Op) :
    ∀ (s : nn_rep) (r : Run), exec s ops = some r →
      ∃ X : List nn_chunkref,
        (↑(released r.trace) : Multiset nn_chunkref) = ↑(replyHeaders r.log) + ↑X ∧
        (↑(pending s) + ↑((delivered ops).map nn_chunkref.live) : Multiset nn_chunkref) =
          ↑X + ↑((sent r.trace).map nn_msg.hdr) + ↑(pending r.rep) ∧
        (token_iff_flag s →
          (∀ c ∈ X, c.isLive = true) ∧ ∀ m ∈ sent r.trace, m.hdr.isLive = true) := by
  induction ops with
  | nil =>
    intro s r h
    simp only [exec, Option.some.injEq] at h
    rw [← h]
    refine ⟨[], ?_, ?_, ?_⟩
    · simp [released, replyHeaders]
    · simp [sent, delivered]
    · intro _
      exact ⟨by simp, by simp [sent]⟩
  | cons op ops ih =>
    intro s r h
    cases op with
    | recv m raw =>
      obtain ⟨rc, r1, hout, h1, hr⟩ := exec_recv_cons s m raw ops r h
      obtain ⟨_, hsent, hrel, hpend⟩ :=
        nn_rep_recv_step s m raw (nn_rep_recv_ret s m raw rc hout)
      obtain ⟨X1, e1, e2, hl⟩ := ih _ r1 h1
      rw [hr]
      refine ⟨pending s ++ X1, ?_, ?_, ?_⟩
      · show (↑(released ((nn_rep_recv s m raw).trace ++ r1.trace)) : Multiset nn_chunkref) =
          ↑(replyHeaders r1.log) + ↑(pending s ++ X1)
        rw [released_append, hrel, ← Multiset.coe_add, ← Multiset.coe_add, e1]
        abel
      · show (↑(pending s) + ↑((delivered (Op.recv m raw :: ops)).map nn_chunkref.live) :
            Multiset nn_chunkref) =
          ↑(pending s ++ X1) +
            ↑((sent ((nn_rep_recv s m raw).trace ++ r1.trace)).map nn_msg.hdr) + ↑(pending r1.rep)
        rw [sent_append, hsent, List.nil_append, ← Multiset.coe_add]
        rw [hpend] at e2
        by_cases h0 : raw.rc = 0
        · rw [if_pos h0] at e2
          have hd : (delivered (Op.recv m raw :: ops)).map nn_chunkref.live =
              [nn_chunkref.live raw.hdr] ++ (delivered ops).map nn_chunkref.live := by
            simp [delivered, h0]
          rw [hd, ← Multiset.coe_add, e2]
          abel
        · rw [if_neg h0] at e2
          have hd : (delivered (Op.recv m raw :: ops)).map nn_chunkref.live =
              (delivered ops).map nn_chunkref.live := by
            simp [delivered, h0]
          have e3 : (↑((delivered ops).map nn_chunkref.live) : Multiset nn_chunkref) =
              ↑X1 + ↑((sent r1.trace).map nn_msg.hdr) + ↑(pending r1.rep) := by
            rw [← e2]
            simp
          rw [hd, e3]
          abel
      · intro hwf
        obtain ⟨hx, hs⟩ := hl (token_iff_flag_recv s m raw rc hwf hout)
        constructor
        · intro c hc
          rcases List.mem_append.mp hc with hc | hc
          · exact pending_live s hwf c hc
          · exact hx c hc
        · intro m1 hm
          apply hs
          have : sent (Run.after (Op.recv m raw) rc (nn_rep_recv s m raw).trace r1).trace =
              sent r1.trace := by
            show sent ((nn_rep_recv s m raw).trace ++ r1.trace) = _
            rw [sent_append, hsent, List.nil_append]
          rw [this] at hm
          exact hm
    | send m c =>
      obtain ⟨rc, r1, hout, h1, hr⟩ := exec_send_cons s m c ops r h
      obtain ⟨X1, e1, e2, hl⟩ := ih _ r1 h1
      rw [hr]
      rcases nn_rep_send_ret s m c rc hout with
        ⟨_, hrep, htr, hrc⟩ | ⟨hp, hsent, hrel, hidle, hrc⟩
      · rw [hrep] at e2 hl
        have hne : ¬ (rc = 0) := by rw [hrc]; decide
        refine ⟨X1, ?_, ?_, ?_⟩
        · show (↑(released ((nn_rep_send s m c).trace ++ r1.trace)) : Multiset nn_chunkref) =
            ↑(replyHeaders ((Op.send m c, rc) :: r1.log)) + ↑X1
          rw [htr, List.nil_append, e1]
          simp [replyHeaders, hne]
        · show (↑(pending s) + ↑((delivered (Op.send m c :: ops)).map nn_chunkref.live) :
              Multiset nn_chunkref) =
            ↑X1 + ↑((sent ((nn_rep_send s m c).trace ++ r1.trace)).map nn_msg.hdr) +
              ↑(pending r1.rep)
          rw [htr, List.nil_append]
          exact e2
        · intro hwf
          obtain ⟨hx, hs⟩ := hl hwf
          refine ⟨hx, ?_⟩
          intro m1 hm
          apply hs
          have : sent (Run.after (Op.send m c) rc (nn_rep_send s m c).trace r1).trace =
              sent r1.trace := by
            show sent ((nn_rep_send s m c).trace ++ r1.trace) = _
            rw [htr, List.nil_append]
          rw [this] at hm
          exact hm
      · rw [pending_idle _ hidle] at e2
        refine ⟨X1, ?_, ?_, ?_⟩
        · show (↑(released ((nn_rep_send s m c).trace ++ r1.trace)) : Multiset nn_chunkref) =
            ↑(replyHeaders ((Op.send m c, rc) :: r1.log)) + ↑X1
          have hrh : replyHeaders ((Op.send m c, rc) :: r1.log) =
              [m.hdr] ++ replyHeaders r1.log := by
            simp [replyHeaders, hrc]
          rw [released_append, hrel, hrh, ← Multiset.coe_add, ← Multiset.coe_add, e1]
          abel
        · show (↑(pending s) + ↑((delivered (Op.send m c :: ops)).map nn_chunkref.live) :
              Multiset nn_chunkref) =
            ↑X1 + ↑((sent ((nn_rep_send s m c).trace ++ r1.trace)).map nn_msg.hdr) +
              ↑(pending r1.rep)
          have e3 : (↑((delivered ops).map nn_chunkref.live) : Multiset nn_chunkref) =
              ↑X1 + ↑((sent r1.trace).map nn_msg.hdr) + ↑(pending r1.rep) := by
            rw [← e2]
            simp
          have hd : delivered (Op.send m c :: ops) = delivered ops := rfl
          have hs : (sent ((nn_rep_send s m c).trace ++ r1.trace)).map nn_msg.hdr =
              [s.backtrace] ++ (sent r1.trace).map nn_msg.hdr := by
            rw [sent_append, hsent]
            rfl
          rw [hd, e3, hs, pending_inprogress s hp, ← Multiset.coe_add]
          abel
        · intro hwf
          obtain ⟨hx, hs⟩ := hl (token_iff_flag_send s m c hwf)
          refine ⟨hx, ?_⟩
          intro m1 hm
          have : sent (Run.after (Op.send m c) rc (nn_rep_send s m c).trace r1).trace =
              { hdr := s.backtrace, body := m.body } :: sent r1.trace := by
            show sent ((nn_rep_send s m c).trace ++ r1.trace) = _
            rw [sent_append, hsent]
            rfl
          rw [this] at hm
          rcases List.mem_cons.mp hm with hm | hm
          · rw [hm]
            exact hwf.mpr hp
          · exact hs m1 hm
    | events e =>
      obtain ⟨r1, h1, hr⟩ := exec_events_cons s e ops r h
      obtain ⟨X1, e1, e2, hl⟩ := ih _ r1 h1
      rw [hr]
      exact ⟨X1, e1, e2, hl⟩

theorem live_list (X : List nn_chunkref) (h : ∀ c ∈ X, c.isLive = true) :
    ∃ toks : List Bytes, X = toks.map nn_chunkref.live := by
  induction X with
  | nil => exact ⟨[], rfl⟩
  | cons c t ih =>
    obtain ⟨toks, ht⟩ := ih (fun x hx => h x (List.mem_cons_of_mem _ hx))
    have hc := h c (List.mem_cons_self _ _)
    cases c with
    | live d => exact ⟨d :: toks, by rw [ht]; rfl⟩
    | uninit => cases hc
    | termed => cases hc
    | moved => cases hc

theorem nn_rep_destroy_trace (s : nn_rep) :
    nn_rep_destroy s = (pending s).map Effect.chunkref_term := by
  unfold nn_rep_destroy nn_rep_term pending
  split <;> rfl

theorem nn_rep_destroy_released (s : nn_rep) :
    released (nn_rep_destroy s) = pending s ∧ sent (nn_rep_destroy s) = [] := by
  rw [nn_rep_destroy_trace]
  unfold pending
  split <;> exact ⟨rfl, rfl⟩

theorem live_injective : Function.Injective nn_chunkref.live := by
  intro a b h
  exact nn_chunkref.live.inj h

/-! ## Send -/

/-- C1: when no request is pending (`NN_REP_INPROGRESS` clear), `nn_rep_send`
returns `-EFSM` for every message, does not invoke `nn_xrep_send`, and leaves
both the message and the socket state as they were (still no request
pending). -/
theorem send_without_request (rep : nn_rep) (msg : nn_msg) (xrep_send_rc : Int)
    (h : ¬ inprogress rep) :
    (nn_rep_send rep msg xrep_send_rc).outcome = .ret (-EFSM) ∧
    (nn_rep_send rep msg xrep_send_rc).trace = [] ∧
    sent (nn_rep_send rep msg xrep_send_rc).trace = [] ∧
    (nn_rep_send rep msg xrep_send_rc).msg = msg ∧
    (nn_rep_send rep msg xrep_send_rc).rep = rep ∧
    ¬ inprogress (nn_rep_send rep msg xrep_send_rc).rep := by
  have hz : rep.flags &&& NN_REP_INPROGRESS = 0 := by
    unfold inprogress at h
    exact not_not.mp h
  have hcall : nn_rep_send rep msg xrep_send_rc =
      { outcome := .ret (-EFSM), rep := rep, msg := msg, trace := [] } := by
    simp [nn_rep_send, hz]
  rw [hcall]
  exact ⟨rfl, rfl, rfl, rfl, rfl, h⟩

theorem send_without_request_witness :
    ¬ inprogress { flags := 0, backtrace := .uninit } ∧
    (nn_rep_send { flags := 0, backtrace := .uninit }
        { hdr := .live [1, 2], body := .live [3] } 0).outcome = .ret (-EFSM) :=
  ⟨by decide,
   (send_without_request { flags := 0, backtrace := .uninit }
      { hdr := .live [1, 2], body := .live [3] } 0 (by decide)).1⟩

/-- C2: after `nn_rep_recv` has returned 0 for a raw message whose header is the
routing token `raw.hdr`, a following `nn_rep_send` of a message with an empty
header, accepted by the raw layer, returns 0, invokes `nn_xrep_send` exactly
once, with a message whose header is exactly that token and whose body is the
reply body, and leaves the socket with `NN_REP_INPROGRESS` clear and no live
backtrace. -/
theorem token_round_trip (rep0 : nn_rep) (buf : nn_msg) (raw : nn_xrep_recv_result)
    (reply : nn_msg)
    (hrecv : (nn_rep_recv rep0 buf raw).outcome = .ret 0)
    (hhdr : nn_chunkref_size reply.hdr = 0) :
    (nn_rep_send (nn_rep_recv rep0 buf raw).rep reply 0).outcome = .ret 0 ∧
    sent (nn_rep_send (nn_rep_recv rep0 buf raw).rep reply 0).trace =
      [{ hdr := .live raw.hdr, body := reply.body }] ∧
    ¬ inprogress (nn_rep_send (nn_rep_recv rep0 buf raw).rep reply 0).rep ∧
    (nn_rep_send (nn_rep_recv rep0 buf raw).rep reply 0).rep.backtrace.isLive = false := by
  have hrc : raw.rc = 0 := (nn_rep_recv_ret_zero rep0 buf raw).mp hrecv
  obtain ⟨_, hbt, hin, _, _⟩ := nn_rep_recv_delivers rep0 buf raw hrc
  rw [nn_rep_send_pending _ reply 0 hin hhdr (Or.inl rfl)]
  refine ⟨rfl, ?_, ?_, ?_⟩
  · simp [sent, hbt, nn_chunkref_mv]
  · unfold inprogress
    simp only [ne_eq, not_not]
    exact and_one_uint32_not _
  · exact isLive_mv_snd _

theorem token_round_trip_witness :
    sent (nn_rep_send (nn_rep_recv { flags := 0, backtrace := .uninit }
        { hdr := .uninit, body := .uninit } { rc := 0, hdr := [7, 8], body := [1] }).rep
        { hdr := .live [], body := .live [2] } 0).trace =
      [{ hdr := .live [7, 8], body := .live [2] }] :=
  (token_round_trip { flags := 0, backtrace := .uninit }
    { hdr := .uninit, body := .uninit } { rc := 0, hdr := [7, 8], body := [1] }
    { hdr := .live [], body := .live [2] } (by decide) (by decide)).2.1

/-- C3: when a request is pending and the message has an empty header, a
would-block (`-EAGAIN`) from `nn_xrep_send` still makes `nn_rep_send` return 0
with `NN_REP_INPROGRESS` clear and no live backtrace afterwards.  The reply is
neither buffered nor retried: `nn_xrep_send` is invoked once in the call, the
state afterwards is the one an accepted send leaves and does not depend on the
reply, and no later call hands anything to the raw layer until a new request
is delivered. -/
theorem send_wouldblock_swallowed (rep : nn_rep) (msg : nn_msg)
    (h : inprogress rep) (hhdr : nn_chunkref_size msg.hdr = 0) :
    (nn_rep_send rep msg (-EAGAIN)).outcome = .ret 0 ∧
    ¬ inprogress (nn_rep_send rep msg (-EAGAIN)).rep ∧
    (nn_rep_send rep msg (-EAGAIN)).rep.backtrace.isLive = false ∧
    (sent (nn_rep_send rep msg (-EAGAIN)).trace).length = 1 ∧
    (nn_rep_send rep msg (-EAGAIN)).rep = (nn_rep_send rep msg 0).rep ∧
    (∀ msg2 : nn_msg, nn_chunkref_size msg2.hdr = 0 →
      (nn_rep_send rep msg2 (-EAGAIN)).rep = (nn_rep_send rep msg (-EAGAIN)).rep) ∧
    (∀ ops : List Op, (∀ op ∈ ops, op.noRequest) →
      ∃ r : Run, exec (nn_rep_send rep msg (-EAGAIN)).rep ops = some r ∧
        sent r.trace = []) := by
  have hidle : ¬ inprogress
      { flags := rep.flags &&& uint32_not NN_REP_INPROGRESS,
        backtrace := (nn_chunkref_mv rep.backtrace).2 } := by
    unfold inprogress
    simp only [ne_eq, not_not]
    exact and_one_uint32_not _
  rw [nn_rep_send_pending rep msg (-EAGAIN) h hhdr (Or.inr rfl),
    nn_rep_send_pending rep msg 0 h hhdr (Or.inl rfl)]
  refine ⟨rfl, hidle, isLive_mv_snd _, ?_, rfl, ?_, ?_⟩
  · simp [sent]
  · intro msg2 h2
    rw [nn_rep_send_pending rep msg2 (-EAGAIN) h h2 (Or.inr rfl)]
  · intro ops hops
    obtain ⟨r, hr, _, hsent, _, _⟩ := exec_idle_noRequest _ hidle ops hops
    exact ⟨r, hr, hsent⟩

theorem send_wouldblock_swallowed_witness :
    inprogress { flags := 1, backtrace := .live [7, 8] } ∧
    (nn_rep_send { flags := 1, backtrace := .live [7, 8] }
        { hdr := .live [], body := .live [2] } (-EAGAIN)).outcome = .ret 0 :=
  ⟨by decide,
   (send_wouldblock_swallowed { flags := 1, backtrace := .live [7, 8] }
      { hdr := .live [], body := .live [2] } (by decide) (by decide)).1⟩

/-! ## Readiness -/

/-- C4: the output-ready bit (`NN_SOCKBASE_EVENT_OUT`) of the result of
`nn_rep_events` is set if and only if a request is pending
(`NN_REP_INPROGRESS` set) and the raw layer reports the output-ready bit;
hence it is clear whenever no request is pending, whatever the raw layer
reports. -/
theorem nn_rep_events_out (rep : nn_rep) (xrep_events : Int) :
    event_set (nn_rep_events rep xrep_events) NN_SOCKBASE_EVENT_OUT ↔
      (inprogress rep ∧ event_set xrep_events NN_SOCKBASE_EVENT_OUT) := by
  by_cases h : rep.flags &&& NN_REP_INPROGRESS = 0
  · have hn : ¬ inprogress rep := fun hp => hp h
    have hev : nn_rep_events rep xrep_events =
        Int.land xrep_events (Int.lnot NN_SOCKBASE_EVENT_OUT) := by
      simp [nn_rep_events, h]
    rw [hev, event_set_out_iff, Int.testBit_land, Int.testBit_lnot]
    have h2 : Int.testBit NN_SOCKBASE_EVENT_OUT 1 = true := by decide
    rw [h2]
    simp [hn]
  · have hp : inprogress rep := h
    have hev : nn_rep_events rep xrep_events = xrep_events := by
      simp [nn_rep_events, h]
    rw [hev]
    simp [hp]

/-! ## Receive -/

/-- C5: when `nn_rep_recv` delivers request A (token `A.hdr`) and a second
`nn_rep_recv`, with no send in between, delivers request B (token `B.hdr`), the
socket has a request pending and holds exactly the token of B, the token of A
having been released by the second call; a following `nn_rep_send` hands the
raw layer one message, whose header is the token of B, and so never the token
of A when the two differ. -/
theorem cancel_and_replace (rep0 : nn_rep) (bufA bufB : nn_msg)
    (A B : nn_xrep_recv_result) (reply : nn_msg) (rc : Int)
    (hA : (nn_rep_recv rep0 bufA A).outcome = .ret 0)
    (hB : (nn_rep_recv (nn_rep_recv rep0 bufA A).rep bufB B).outcome = .ret 0)
    (hhdr : nn_chunkref_size reply.hdr = 0) (hrc : rc = 0 ∨ rc = -EAGAIN) :
    inprogress (nn_rep_recv (nn_rep_recv rep0 bufA A).rep bufB B).rep ∧
    (nn_rep_recv (nn_rep_recv rep0 bufA A).rep bufB B).rep.backtrace = .live B.hdr ∧
    released (nn_rep_recv (nn_rep_recv rep0 bufA A).rep bufB B).trace = [.live A.hdr] ∧
    sent (nn_rep_send (nn_rep_recv (nn_rep_recv rep0 bufA A).rep bufB B).rep reply rc).trace =
      [{ hdr := .live B.hdr, body := reply.body }] ∧
    (A.hdr ≠ B.hdr →
      ∀ m ∈ sent (nn_rep_send
          (nn_rep_recv (nn_rep_recv rep0 bufA A).rep bufB B).rep reply rc).trace,
        m.hdr ≠ .live A.hdr) := by
  have hrcA : A.rc = 0 := (nn_rep_recv_ret_zero _ _ _).mp hA
  have hrcB : B.rc = 0 := (nn_rep_recv_ret_zero _ _ _).mp hB
  obtain ⟨_, hbtA, hinA, _, _⟩ := nn_rep_recv_delivers rep0 bufA A hrcA
  obtain ⟨_, hbtB, hinB, _, htrB⟩ :=
    nn_rep_recv_delivers (nn_rep_recv rep0 bufA A).rep bufB B hrcB
  have hpend : pending (nn_rep_recv rep0 bufA A).rep = [.live A.hdr] := by
    have hf : ¬ ((nn_rep_recv rep0 bufA A).rep.flags &&& NN_REP_INPROGRESS = 0) := hinA
    simp [pending, hf, hbtA]
  have hsent : sent (nn_rep_send
      (nn_rep_recv (nn_rep_recv rep0 bufA A).rep bufB B).rep reply rc).trace =
      [{ hdr := .live B.hdr, body := reply.body }] := by
    rw [nn_rep_send_pending _ reply rc hinB hhdr hrc]
    simp [sent, hbtB, nn_chunkref_mv]
  refine ⟨hinB, hbtB, ?_, hsent, ?_⟩
  · rw [htrB, hpend]
    simp [released]
  · intro hne m hm
    rw [hsent] at hm
    simp only [List.mem_singleton] at hm
    rw [hm]
    intro heq
    exact hne (nn_chunkref.live.inj heq).symm

theorem cancel_and_replace_witness :
    released (nn_rep_recv (nn_rep_recv { flags := 0, backtrace := .uninit }
        { hdr := .uninit, body := .uninit } { rc := 0, hdr := [1], body := [10] }).rep
        { hdr := .uninit, body := .uninit } { rc := 0, hdr := [2], body := [20] }).trace =
      [.live [1]] :=
  (cancel_and_replace { flags := 0, backtrace := .uninit }
    { hdr := .uninit, body := .uninit } { hdr := .uninit, body := .uninit }
    { rc := 0, hdr := [1], body := [10] } { rc := 0, hdr := [2], body := [20] }
    { hdr := .live [], body := .live [30] } 0
    (by decide) (by decide) (by decide) (by decide)).2.2.1

/-- C6, as stated, fails: a socket with a request pending and token `[7]` on
which `nn_rep_recv` meets would-block returns `-EAGAIN` but is changed by the
call: the token is released and `NN_REP_INPROGRESS` is cleared. -/
theorem recv_wouldblock_changes_state :
    inprogress { flags := 1, backtrace := .live [7] } ∧
    (nn_rep_recv { flags := 1, backtrace := .live [7] }
        { hdr := .uninit, body := .uninit }
        { rc := -EAGAIN, hdr := [], body := [] }).outcome = .ret (-EAGAIN) ∧
    (nn_rep_recv { flags := 1, backtrace := .live [7] }
        { hdr := .uninit, body := .uninit }
        { rc := -EAGAIN, hdr := [], body := [] }).rep
      = { flags := 0, backtrace := .termed } ∧
    (nn_rep_recv { flags := 1, backtrace := .live [7] }
        { hdr := .uninit, body := .uninit }
        { rc := -EAGAIN, hdr := [], body := [] }).rep
      ≠ { flags := 1, backtrace := .live [7] } ∧
    released (nn_rep_recv { flags := 1, backtrace := .live [7] }
        { hdr := .uninit, body := .uninit }
        { rc := -EAGAIN, hdr := [], body := [] }).trace = [.live [7]] := by
  decide

/-- C6, amended: when `nn_xrep_recv` reports would-block (`-EAGAIN`),
`nn_rep_recv` returns `-EAGAIN` and leaves the caller's message buffer alone.
A socket with no request pending is left unchanged and nothing is released; a
socket with a request pending has its backtrace released and
`NN_REP_INPROGRESS` cleared, so that no request is pending afterwards. -/
theorem recv_wouldblock_cancels (rep : nn_rep) (msg : nn_msg)
    (raw : nn_xrep_recv_result) (h : raw.rc = -EAGAIN) :
    (nn_rep_recv rep msg raw).outcome = .ret (-EAGAIN) ∧
    (nn_rep_recv rep msg raw).msg = msg ∧
    sent (nn_rep_recv rep msg raw).trace = [] ∧
    (¬ inprogress rep →
      (nn_rep_recv rep msg raw).rep = rep ∧
      released (nn_rep_recv rep msg raw).trace = []) ∧
    (inprogress rep →
      ¬ inprogress (nn_rep_recv rep msg raw).rep ∧
      (nn_rep_recv rep msg raw).rep.backtrace = .termed ∧
      released (nn_rep_recv rep msg raw).trace = [rep.backtrace]) := by
  by_cases hp : inprogress rep
  · rw [nn_rep_recv_wouldblock_pending rep msg raw h hp]
    refine ⟨rfl, rfl, rfl, fun hn => absurd hp hn, fun _ => ⟨?_, rfl, rfl⟩⟩
    exact not_inprogress_cleared _ _
  · rw [nn_rep_recv_wouldblock_idle rep msg raw h hp]
    exact ⟨rfl, rfl, rfl, fun _ => ⟨rfl, rfl⟩, fun hq => absurd hq hp⟩

theorem recv_wouldblock_cancels_witness :
    (nn_rep_recv { flags := 1, backtrace := .live [7] }
        { hdr := .uninit, body := .uninit }
        { rc := -EAGAIN, hdr := [], body := [] }).outcome = .ret (-EAGAIN) :=
  (recv_wouldblock_cancels { flags := 1, backtrace := .live [7] }
    { hdr := .uninit, body := .uninit }
    { rc := -EAGAIN, hdr := [], body := [] } (by decide)).1

/-- C7, as stated, fails: on a socket on which a first `nn_rep_recv` delivers a
request with token `[7]` and a second one, with no send in between, meets
would-block, the socket afterwards retains no token: the token of the most
recently delivered request has been released and `NN_REP_INPROGRESS` is
clear. -/
theorem recv_sequence_drops_last_delivered :
    (∃ c ∈ [(({ hdr := .uninit, body := .uninit } : nn_msg),
              ({ rc := 0, hdr := [7], body := [9] } : nn_xrep_recv_result)),
            ({ hdr := .uninit, body := .uninit }, { rc := -EAGAIN, hdr := [], body := [] })],
        c.2.rc = 0) ∧
    (exec { flags := 0, backtrace := .uninit }
        (recvOps [({ hdr := .uninit, body := .uninit }, { rc := 0, hdr := [7], body := [9] }),
                  ({ hdr := .uninit, body := .uninit },
                   { rc := -EAGAIN, hdr := [], body := [] })])).map Run.rep
      = some { flags := 0, backtrace := .termed } ∧
    (exec { flags := 0, backtrace := .uninit }
        (recvOps [({ hdr := .uninit, body := .uninit }, { rc := 0, hdr := [7], body := [9] }),
                  ({ hdr := .uninit, body := .uninit },
                   { rc := -EAGAIN, hdr := [], body := [] })])).map
        (fun r => released r.trace)
      = some [.live [7]] ∧
    ¬ inprogress { flags := 0, backtrace := .termed } := by
  decide

/-- C7, amended: after every finite sequence of `nn_rep_recv` calls with no
intervening send, each delivering a request or meeting would-block and at least
one delivering a request, the outcome is decided by the last call.  If it
delivered a request, the socket retains exactly that request's token; if it met
would-block, the socket retains no token.  In both cases every token delivered
by an earlier call, and the reference pending at the start, has been released,
and nothing was handed to the raw layer's send. -/
theorem recv_sequence_retains (s : nn_rep)
    (calls : List (nn_msg × nn_xrep_recv_result)) (last : nn_msg × nn_xrep_recv_result)
    (hrc : ∀ c ∈ calls ++ [last], c.2.rc = 0 ∨ c.2.rc = -EAGAIN)
    (hsome : ∃ c ∈ calls ++ [last], c.2.rc = 0) :
    ∃ r : Run, exec s (recvOps (calls ++ [last])) = some r ∧
      sent r.trace = [] ∧
      released r.trace =
        pending s ++ (delivered (recvOps calls)).map nn_chunkref.live ∧
      (last.2.rc = 0 →
        inprogress r.rep ∧ r.rep.backtrace = .live last.2.hdr ∧
        pending r.rep = [.live last.2.hdr]) ∧
      (last.2.rc = -EAGAIN →
        ¬ inprogress r.rep ∧ r.rep.backtrace.isLive = false ∧ pending r.rep = []) := by
  obtain ⟨r1, hr1, hsent1, hcons1, hwf1⟩ :=
    exec_recvOps calls s (fun c hc => hrc c (List.mem_append_left _ hc))
  have hlast := hrc last (List.mem_append_right _ (List.mem_singleton_self _))
  obtain ⟨hout, hsent, hrel, hpend⟩ := nn_rep_recv_step r1.rep last.1 last.2 hlast
  have hexec : exec s (recvOps (calls ++ [last])) =
      some (r1.append (Run.after (.recv last.1 last.2) last.2.rc
        (nn_rep_recv r1.rep last.1 last.2).trace
        { rep := (nn_rep_recv r1.rep last.1 last.2).rep, trace := [], log := [] })) := by
    have hops : recvOps (calls ++ [last]) = recvOps calls ++ [Op.recv last.1 last.2] := by
      simp [recvOps]
    rw [hops, exec_append, hr1, Option.some_bind, exec_cons_recv, hout]
    rfl
  refine ⟨_, hexec, ?_, ?_, ?_, ?_⟩
  · simp only [Run.append, Run.after, sent_append, hsent1, hsent, sent, List.append_nil]
  · simp only [Run.append, Run.after, released_append, hrel, released, List.append_nil]
    exact hcons1
  · intro h0
    obtain ⟨_, hbt, hin, _, _⟩ := nn_rep_recv_delivers r1.rep last.1 last.2 h0
    refine ⟨hin, hbt, ?_⟩
    show pending (nn_rep_recv r1.rep last.1 last.2).rep = _
    rw [hpend, if_pos h0]
  · intro h1
    have hne : ¬ (last.2.rc = 0) := by rw [h1]; decide
    have hpend0 : pending (nn_rep_recv r1.rep last.1 last.2).rep = [] := by
      rw [hpend, if_neg hne]
    have hidle : ¬ inprogress (nn_rep_recv r1.rep last.1 last.2).rep := by
      intro hin
      rw [pending_inprogress _ hin] at hpend0
      cases hpend0
    have hprev : token_iff_flag r1.rep := by
      apply hwf1
      obtain ⟨c, hc, hc0⟩ := hsome
      rcases List.mem_append.mp hc with hcalls | hl
      · exact Or.inr ⟨c, hcalls, hc0⟩
      · rw [List.mem_singleton.mp hl] at hc0
        exact absurd hc0 hne
    have hwf : token_iff_flag (nn_rep_recv r1.rep last.1 last.2).rep :=
      token_iff_flag_recv r1.rep last.1 last.2 last.2.rc hprev hout
    refine ⟨hidle, ?_, hpend0⟩
    show (nn_rep_recv r1.rep last.1 last.2).rep.backtrace.isLive = false
    cases hl : (nn_rep_recv r1.rep last.1 last.2).rep.backtrace.isLive with
    | false => rfl
    | true => exact absurd (hwf.mp hl) hidle

theorem recv_sequence_retains_witness :
    ∃ r : Run, exec { flags := 0, backtrace := .uninit }
        (recvOps ([({ hdr := .uninit, body := .uninit }, { rc := 0, hdr := [7], body := [9] }),
                   ({ hdr := .uninit, body := .uninit },
                    { rc := -EAGAIN, hdr := [], body := [] })] ++
                  [({ hdr := .uninit, body := .uninit },
                    { rc := 0, hdr := [8], body := [1] })])) = some r ∧
      sent r.trace = [] ∧
      released r.trace =
        pending { flags := 0, backtrace := .uninit } ++
          (delivered (recvOps
            [({ hdr := .uninit, body := .uninit }, { rc := 0, hdr := [7], body := [9] }),
             ({ hdr := .uninit, body := .uninit },
              { rc := -EAGAIN, hdr := [], body := [] })])).map nn_chunkref.live ∧
      ((0 : Int) = 0 →
        inprogress r.rep ∧ r.rep.backtrace = .live [8] ∧ pending r.rep = [.live [8]]) ∧
      ((0 : Int) = -EAGAIN →
        ¬ inprogress r.rep ∧ r.rep.backtrace.isLive = false ∧ pending r.rep = []) :=
  recv_sequence_retains { flags := 0, backtrace := .uninit }
    [({ hdr := .uninit, body := .uninit }, { rc := 0, hdr := [7], body := [9] }),
     ({ hdr := .uninit, body := .uninit }, { rc := -EAGAIN, hdr := [], body := [] })]
    ({ hdr := .uninit, body := .uninit }, { rc := 0, hdr := [8], body := [1] })
    (by decide) (by decide)

/-- C8: for every socket state and every raw message with header `T` and body
`B` that `nn_xrep_recv` delivers (return code 0), `nn_rep_recv` returns 0,
stores `T` as the backtrace, sets `NN_REP_INPROGRESS`, and hands the caller a
message whose header is empty (size 0) and whose body is `B`. -/
theorem recv_stores_token (rep : nn_rep) (msg : nn_msg)
    (raw : nn_xrep_recv_result) (h : raw.rc = 0) :
    (nn_rep_recv rep msg raw).outcome = .ret 0 ∧
    (nn_rep_recv rep msg raw).rep.backtrace = .live raw.hdr ∧
    (nn_rep_recv rep msg raw).rep.flags &&& NN_REP_INPROGRESS = NN_REP_INPROGRESS ∧
    (nn_rep_recv rep msg raw).msg.hdr = .live [] ∧
    nn_chunkref_size (nn_rep_recv rep msg raw).msg.hdr = 0 ∧
    (nn_rep_recv rep msg raw).msg.body = .live raw.body := by
  obtain ⟨h1, h2, _, h4, _⟩ := nn_rep_recv_delivers rep msg raw h
  refine ⟨h1, h2, ?_, ?_, ?_, ?_⟩
  · simp only [nn_rep_recv, h, zero_ne_neg_EAGAIN, if_false, ne_eq, not_true_eq_false]
    exact or_one_and_one _
  · rw [h4]
  · rw [h4]; rfl
  · rw [h4]

theorem recv_stores_token_witness :
    (nn_rep_recv { flags := 1, backtrace := .live [7] }
        { hdr := .uninit, body := .uninit }
        { rc := 0, hdr := [4, 5], body := [6] }).rep.backtrace = .live [4, 5] :=
  (recv_stores_token { flags := 1, backtrace := .live [7] }
    { hdr := .uninit, body := .uninit }
    { rc := 0, hdr := [4, 5], body := [6] } rfl).2.1

/-! ## Invariants over sequences of calls -/

/-- C9: in every state reachable from a freshly created socket by any sequence
of recv, send and events calls in which no assertion fails, the stored
backtrace is a live token (initialised, neither released nor moved out) if and
only if `NN_REP_INPROGRESS` is set. -/
theorem reachable_token_iff_flag (s : nn_rep) (h : Reachable s) :
    s.backtrace.isLive = true ↔ inprogress s := by
  obtain ⟨garbage, rc0, s0, ops, r, hcreate, hexec, hr⟩ := h
  have h0 : s0 = { flags := 0, backtrace := .uninit } :=
    nn_rep_create_ok garbage rc0 s0 hcreate
  have hwf0 : token_iff_flag s0 := by
    rw [h0]
    unfold token_iff_flag
    constructor
    · intro hl
      cases hl
    · intro hq
      exact absurd hq (by decide)
  have := token_iff_flag_exec ops s0 r hwf0 hexec
  rw [hr] at this
  exact this

theorem reachable_token_iff_flag_witness :
    Reachable { flags := 1, backtrace := .live [7] } ∧
    ((nn_chunkref.live [7]).isLive = true ↔
      inprogress { flags := 1, backtrace := .live [7] }) :=
  have hreach : Reachable { flags := 1, backtrace := .live [7] } :=
    ⟨5, 0, { flags := 0, backtrace := .uninit },
      [Op.recv { hdr := .uninit, body := .uninit } { rc := 0, hdr := [7], body := [9] },
       Op.events 3],
      { rep := { flags := 1, backtrace := .live [7] },
        trace := [Effect.xrep_recv],
        log := [(Op.recv { hdr := .uninit, body := .uninit } { rc := 0, hdr := [7], body := [9] }, 0),
                (Op.events 3, 3)] },
      by decide, by decide, rfl⟩
  ⟨hreach, reachable_token_iff_flag _ hreach⟩

/-- C10: a request is answered at most once.  For every sequence of calls on a
freshly created socket in which no assertion fails, the headers handed to
`nn_xrep_send` form a subsequence of the tokens delivered by the successful
`recv` calls, so each delivered token is handed over at most once and the
number of raw sends never exceeds the number of successful recvs.  And once
`nn_rep_send` has returned 0 in the state reached, every further call up to the
next delivered request runs without invoking `nn_xrep_send`, each `send` among
them returning `-EFSM`. -/
theorem answered_at_most_once (garbage : Nat) (xrep_init_rc : Int) (s0 : nn_rep)
    (ops : List Op) (r : Run)
    (hcreate : nn_rep_create (nn_alloc garbage) xrep_init_rc = (0, some s0))
    (hexec : exec s0 ops = some r) :
    List.Sublist ((sent r.trace).map nn_msg.hdr)
      ((delivered ops).map nn_chunkref.live) ∧
    (sent r.trace).length ≤ (delivered ops).length ∧
    (∀ (msg : nn_msg) (rc : Int), (nn_rep_send r.rep msg rc).outcome = .ret 0 →
      (∀ (m : nn_msg) (c : Int),
        nn_rep_send (nn_rep_send r.rep msg rc).rep m c =
          { outcome := .ret (-EFSM), rep := (nn_rep_send r.rep msg rc).rep,
            msg := m, trace := [] }) ∧
      ∀ more : List Op, (∀ op ∈ more, op.noRequest) →
        ∃ r2 : Run, exec (nn_rep_send r.rep msg rc).rep more = some r2 ∧
          r2.rep = (nn_rep_send r.rep msg rc).rep ∧
          sent r2.trace = [] ∧
          ∀ m c rc2, (Op.send m c, rc2) ∈ r2.log → rc2 = -EFSM) := by
  have h0 : s0 = { flags := 0, backtrace := .uninit } :=
    nn_rep_create_ok garbage xrep_init_rc s0 hcreate
  have hsub := sent_sublist_delivered ops s0 r hexec
  have hp0 : pending s0 = [] := by rw [h0]; rfl
  rw [hp0, List.nil_append] at hsub
  refine ⟨hsub, ?_, ?_⟩
  · have := hsub.length_le
    simpa using this
  · intro msg rc hout
    have hidle : ¬ inprogress (nn_rep_send r.rep msg rc).rep := by
      rcases nn_rep_send_ret r.rep msg rc 0 hout with ⟨_, _, _, hrc⟩ | ⟨_, _, _, hidle, _⟩
      · exact absurd hrc (by decide)
      · exact hidle
    constructor
    · intro m c
      exact nn_rep_send_efsm _ m c hidle
    · intro more hmore
      obtain ⟨r2, hr2, hrep, hsent, _, hlog⟩ := exec_idle_noRequest _ hidle more hmore
      exact ⟨r2, hr2, hrep, hsent, hlog⟩

theorem answered_at_most_once_witness :
    List.Sublist
      ((sent [Effect.xrep_recv, Effect.chunkref_term (.live []),
              Effect.xrep_send { hdr := .live [7], body := .live [2] }]).map nn_msg.hdr)
      ((delivered
        [Op.recv { hdr := .uninit, body := .uninit } { rc := 0, hdr := [7], body := [9] },
         Op.send { hdr := .live [], body := .live [2] } 0,
         Op.send { hdr := .live [], body := .live [3] } 0]).map nn_chunkref.live) :=
  (answered_at_most_once 5 0 { flags := 0, backtrace := .uninit }
    [Op.recv { hdr := .uninit, body := .uninit } { rc := 0, hdr := [7], body := [9] },
     Op.send { hdr := .live [], body := .live [2] } 0,
     Op.send { hdr := .live [], body := .live [3] } 0]
    { rep := { flags := 0, backtrace := .moved },
      trace := [Effect.xrep_recv, Effect.chunkref_term (.live []),
                Effect.xrep_send { hdr := .live [7], body := .live [2] }],
      log := [(Op.recv { hdr := .uninit, body := .uninit } { rc := 0, hdr := [7], body := [9] }, 0),
              (Op.send { hdr := .live [], body := .live [2] } 0, 0),
              (Op.send { hdr := .live [], body := .live [3] } 0, -EFSM)] }
    (by decide) (by decide)).1

/-! ## Construction -/

/-- C11: `nn_rep_create` fails if and only if `nn_xrep_init` returns a negative
code; it then returns that same code and yields no socket.  Otherwise it
returns 0 and the new socket has `flags = 0` and no pending backtrace (the
backtrace field is left as allocated, not live), so that a send issued right
after creation returns `-EFSM` without invoking the raw layer. -/
theorem nn_rep_create_result (garbage : Nat) (xrep_init_rc : Int) :
    ((nn_rep_create (nn_alloc garbage) xrep_init_rc).2 = none ↔ xrep_init_rc < 0) ∧
    ((nn_rep_create (nn_alloc garbage) xrep_init_rc).1 < 0 ↔ xrep_init_rc < 0) ∧
    (xrep_init_rc < 0 →
      nn_rep_create (nn_alloc garbage) xrep_init_rc = (xrep_init_rc, none)) ∧
    (¬ xrep_init_rc < 0 →
      nn_rep_create (nn_alloc garbage) xrep_init_rc =
        (0, some { flags := 0, backtrace := .uninit })) ∧
    (∀ s0 : nn_rep, (nn_rep_create (nn_alloc garbage) xrep_init_rc).2 = some s0 →
      (nn_rep_create (nn_alloc garbage) xrep_init_rc).1 = 0 ∧
      s0.flags = 0 ∧ ¬ inprogress s0 ∧ pending s0 = [] ∧
      s0.backtrace.isLive = false ∧
      ∀ (m : nn_msg) (c : Int), nn_rep_send s0 m c =
        { outcome := .ret (-EFSM), rep := s0, msg := m, trace := [] }) := by
  by_cases hneg : xrep_init_rc < 0
  · have hc : nn_rep_create (nn_alloc garbage) xrep_init_rc = (xrep_init_rc, none) := by
      simp [nn_rep_create, nn_rep_init, hneg]
    rw [hc]
    refine ⟨by simp [hneg], by simp, fun _ => rfl, fun h => absurd hneg h, ?_⟩
    intro s0 h
    cases h
  · have hc : nn_rep_create (nn_alloc garbage) xrep_init_rc =
        (0, some { flags := 0, backtrace := .uninit }) := by
      simp [nn_rep_create, nn_rep_init, nn_alloc, hneg]
    rw [hc]
    refine ⟨by simp [hneg], by simp [hneg], fun h => absurd h hneg, fun _ => rfl, ?_⟩
    intro s0 h
    have hs : s0 = { flags := 0, backtrace := .uninit } := by
      simp only [Option.some.injEq] at h
      exact h.symm
    have hidle : ¬ inprogress s0 := by rw [hs]; decide
    refine ⟨rfl, by rw [hs], hidle, pending_idle s0 hidle, by rw [hs]; rfl, ?_⟩
    intro m c
    exact nn_rep_send_efsm s0 m c hidle

/-! ## Assertions and return codes -/

/-- C14: when a request is pending, `nn_rep_send` ends in an assertion failure
if and only if the header of the supplied message is not empty or the code of
`nn_xrep_send` is neither 0 nor `-EAGAIN`; in every other case it returns 0.
Hence with an empty header and a raw code among 0 and `-EAGAIN` no assertion
fails. -/
theorem nn_rep_send_assertions (rep : nn_rep) (msg : nn_msg) (xrep_send_rc : Int)
    (h : inprogress rep) :
    ((nn_rep_send rep msg xrep_send_rc).outcome = .assert_failed ↔
      (nn_chunkref_size msg.hdr ≠ 0 ∨
        ¬ (xrep_send_rc = 0 ∨ xrep_send_rc = -EAGAIN))) ∧
    ((nn_rep_send rep msg xrep_send_rc).outcome = .ret 0 ↔
      (nn_chunkref_size msg.hdr = 0 ∧
        (xrep_send_rc = 0 ∨ xrep_send_rc = -EAGAIN))) ∧
    ((nn_rep_send rep msg xrep_send_rc).outcome = .assert_failed ∨
      (nn_rep_send rep msg xrep_send_rc).outcome = .ret 0) := by
  have hf : ¬ (rep.flags &&& NN_REP_INPROGRESS = 0) := h
  by_cases hh : nn_chunkref_size msg.hdr = 0
  · by_cases hc : xrep_send_rc = 0 ∨ xrep_send_rc = -EAGAIN
    · have ho : (nn_rep_send rep msg xrep_send_rc).outcome = .ret 0 := by
        simp [nn_rep_send, hf, hh, hc]
      rw [ho]
      simp [hh, hc]
    · have ho : (nn_rep_send rep msg xrep_send_rc).outcome = .assert_failed := by
        simp [nn_rep_send, hf, hh, hc]
      rw [ho]
      simp [hh, hc]
  · have ho : (nn_rep_send rep msg xrep_send_rc).outcome = .assert_failed := by
      simp [nn_rep_send, hf, hh]
    rw [ho]
    simp [hh]

theorem nn_rep_send_assertions_witness :
    inprogress { flags := 1, backtrace := .live [7] } ∧
    ((nn_rep_send { flags := 1, backtrace := .live [7] }
        { hdr := .live [5], body := .live [2] } 0).outcome = .assert_failed ↔
      (nn_chunkref_size (nn_msg.hdr { hdr := .live [5], body := .live [2] }) ≠ 0 ∨
        ¬ ((0 : Int) = 0 ∨ (0 : Int) = -EAGAIN))) :=
  ⟨by decide,
   (nn_rep_send_assertions { flags := 1, backtrace := .live [7] }
      { hdr := .live [5], body := .live [2] } 0 (by decide)).1⟩

/-- C15: `nn_rep_recv` returns only 0 or `-EAGAIN`: it returns `-EAGAIN` exactly
when `nn_xrep_recv` returns `-EAGAIN`, it returns 0 exactly when `nn_xrep_recv`
returns 0, and every other raw code ends in an assertion failure instead of a
returned value. -/
theorem nn_rep_recv_codes (rep : nn_rep) (msg : nn_msg) (raw : nn_xrep_recv_result) :
    ((nn_rep_recv rep msg raw).outcome = .ret (-EAGAIN) ↔ raw.rc = -EAGAIN) ∧
    ((nn_rep_recv rep msg raw).outcome = .ret 0 ↔ raw.rc = 0) ∧
    ((nn_rep_recv rep msg raw).outcome = .assert_failed ↔
      (raw.rc ≠ 0 ∧ raw.rc ≠ -EAGAIN)) ∧
    (∀ rc : Int, (nn_rep_recv rep msg raw).outcome = .ret rc →
      rc = 0 ∨ rc = -EAGAIN) := by
  refine ⟨nn_rep_recv_ret_eagain rep msg raw, nn_rep_recv_ret_zero rep msg raw,
    nn_rep_recv_failed rep msg raw, ?_⟩
  intro rc hout
  rcases nn_rep_recv_ret rep msg raw rc hout with h0 | h1
  · left
    have := (nn_rep_recv_ret_zero rep msg raw).mpr h0
    rw [this] at hout
    exact (Exit.ret.inj hout).symm
  · right
    have := (nn_rep_recv_ret_eagain rep msg raw).mpr h1
    rw [this] at hout
    exact (Exit.ret.inj hout).symm

/-! ## Readiness: the other bits and purity -/

/-- C12: every bit of the result of `nn_rep_events` that is not the
output-ready bit equals the same bit of the raw layer's readiness, so the
input-ready bit is passed through; and the result has no bit set that the raw
layer did not report. -/
theorem nn_rep_events_other_bits (rep : nn_rep) (xrep_events : Int) :
    (∀ k : Nat, Int.testBit NN_SOCKBASE_EVENT_OUT k = false →
      Int.testBit (nn_rep_events rep xrep_events) k = Int.testBit xrep_events k) ∧
    (event_set (nn_rep_events rep xrep_events) NN_SOCKBASE_EVENT_IN ↔
      event_set xrep_events NN_SOCKBASE_EVENT_IN) ∧
    (∀ k : Nat, Int.testBit (nn_rep_events rep xrep_events) k = true →
      Int.testBit xrep_events k = true) := by
  refine ⟨?_, ?_, ?_⟩
  · intro k hk
    rw [nn_rep_events_testBit, hk]
    simp
  · rw [event_set_in_iff, event_set_in_iff, nn_rep_events_testBit]
    have h0 : Int.testBit NN_SOCKBASE_EVENT_OUT 0 = false := by decide
    rw [h0]
    simp
  · intro k hk
    rw [nn_rep_events_testBit] at hk
    simp only [Bool.and_eq_true] at hk
    exact hk.1

/-- C13: `nn_rep_events` has no side effect on the protocol state.  With the
socket state threaded through the call, the state afterwards is the state
before (so `NN_REP_INPROGRESS` and the stored backtrace are the same), the call
releases nothing and hands nothing to the raw layer, and its value is the mask
`nn_rep_events` computes.  A second call, made in the state the first one
leaves and with the same raw readiness, returns the same value.  In a run, an
`events` call is this state transformer, and placed anywhere in a sequence of
calls it changes neither the state reached nor the effects. -/
theorem nn_rep_events_pure (s : nn_rep) (xrep_events : Int) (a b : List Op) :
    (nn_rep_events_call s xrep_events).rep = s ∧
    (nn_rep_events_call s xrep_events).rep.flags &&& NN_REP_INPROGRESS =
      s.flags &&& NN_REP_INPROGRESS ∧
    (nn_rep_events_call s xrep_events).rep.backtrace = s.backtrace ∧
    (nn_rep_events_call s xrep_events).trace = [] ∧
    (nn_rep_events_call s xrep_events).events = nn_rep_events s xrep_events ∧
    (nn_rep_events_call (nn_rep_events_call s xrep_events).rep xrep_events).events =
      (nn_rep_events_call s xrep_events).events ∧
    nn_rep_events_call (nn_rep_events_call s xrep_events).rep xrep_events =
      nn_rep_events_call s xrep_events ∧
    exec s [Op.events xrep_events] =
      some { rep := (nn_rep_events_call s xrep_events).rep,
             trace := (nn_rep_events_call s xrep_events).trace,
             log := [(Op.events xrep_events, (nn_rep_events_call s xrep_events).events)] } ∧
    exec s [Op.events xrep_events, Op.events xrep_events] =
      some { rep := s, trace := [],
             log := [(Op.events xrep_events, (nn_rep_events_call s xrep_events).events),
                     (Op.events xrep_events,
                      (nn_rep_events_call (nn_rep_events_call s xrep_events).rep
                        xrep_events).events)] } ∧
    (exec s (a ++ Op.events xrep_events :: b)).map (fun r => (r.rep, r.trace)) =
      (exec s (a ++ b)).map (fun r => (r.rep, r.trace)) := by
  have hrep : (nn_rep_events_call s xrep_events).rep = s := by
    unfold nn_rep_events_call
    split <;> rfl
  have htrace : (nn_rep_events_call s xrep_events).trace = [] := by
    unfold nn_rep_events_call
    split <;> rfl
  have hval : (nn_rep_events_call s xrep_events).events = nn_rep_events s xrep_events := by
    unfold nn_rep_events_call nn_rep_events
    split <;> rfl
  refine ⟨hrep, by rw [hrep], by rw [hrep], htrace, hval, by rw [hrep], by rw [hrep],
    ?_, ?_, ?_⟩
  · rw [hrep, htrace, hval]
    rfl
  · rw [hrep, hval]
    rfl
  · rw [exec_append, exec_append]
    cases exec s a with
    | none => rfl
    | some r1 =>
      simp only [Option.some_bind, exec_cons_events, Option.map_map]
      cases exec r1.rep b with
      | none => rfl
      | some r2 =>
        simp [Run.append, Run.after]

/-! ## Receive: would-block and the message body -/

/-- C17: after an `nn_rep_recv` call that returns `-EAGAIN`, whatever the state
before, no request is pending: `NN_REP_INPROGRESS` is clear, the reference that
was pending before the call (if any) has been released, a following
`nn_rep_send` returns `-EFSM` without invoking the raw layer, and
`nn_rep_events` reports the output-ready bit clear. -/
theorem recv_wouldblock_leaves_idle (rep : nn_rep) (msg : nn_msg)
    (raw : nn_xrep_recv_result)
    (h : (nn_rep_recv rep msg raw).outcome = .ret (-EAGAIN)) :
    (nn_rep_recv rep msg raw).rep.flags &&& NN_REP_INPROGRESS = 0 ∧
    released (nn_rep_recv rep msg raw).trace = pending rep ∧
    (inprogress rep → (nn_rep_recv rep msg raw).rep.backtrace = .termed) ∧
    (∀ (m : nn_msg) (c : Int), nn_rep_send (nn_rep_recv rep msg raw).rep m c =
      { outcome := .ret (-EFSM), rep := (nn_rep_recv rep msg raw).rep,
        msg := m, trace := [] }) ∧
    (∀ e : Int,
      ¬ event_set (nn_rep_events (nn_rep_recv rep msg raw).rep e)
          NN_SOCKBASE_EVENT_OUT) := by
  have hrc : raw.rc = -EAGAIN := (nn_rep_recv_ret_eagain rep msg raw).mp h
  have hidle : ¬ inprogress (nn_rep_recv rep msg raw).rep := by
    by_cases hp : inprogress rep
    · rw [nn_rep_recv_wouldblock_pending rep msg raw hrc hp]
      exact not_inprogress_cleared _ _
    · rw [nn_rep_recv_wouldblock_idle rep msg raw hrc hp]
      exact hp
  refine ⟨?_, ?_, ?_, ?_, ?_⟩
  · unfold inprogress at hidle
    exact not_not.mp hidle
  · exact (nn_rep_recv_step rep msg raw (Or.inr hrc)).2.2.1
  · intro hp
    rw [nn_rep_recv_wouldblock_pending rep msg raw hrc hp]
  · intro m c
    exact nn_rep_send_efsm _ m c hidle
  · intro e
    exact nn_rep_events_idle_out _ e hidle

theorem recv_wouldblock_leaves_idle_witness :
    released (nn_rep_recv { flags := 1, backtrace := .live [7] }
        { hdr := .uninit, body := .uninit }
        { rc := -EAGAIN, hdr := [], body := [] }).trace =
      pending { flags := 1, backtrace := .live [7] } :=
  (recv_wouldblock_leaves_idle { flags := 1, backtrace := .live [7] }
    { hdr := .uninit, body := .uninit }
    { rc := -EAGAIN, hdr := [], body := [] } (by decide)).2.1

/-- C18: the protocol layer never alters a message body.  With a request
pending and an empty header, the one message `nn_rep_send` hands to the raw
layer has the body of the caller's message, and so has the caller's buffer
afterwards; and the message `nn_rep_recv` returns for a raw message with body
`B` has body `B`, being the raw message with only its header replaced by an
empty one. -/
theorem body_unchanged (rep : nn_rep) (msg : nn_msg) (xrep_send_rc : Int)
    (rep2 : nn_rep) (buf : nn_msg) (raw : nn_xrep_recv_result)
    (h : inprogress rep) (hhdr : nn_chunkref_size msg.hdr = 0) (hraw : raw.rc = 0) :
    sent (nn_rep_send rep msg xrep_send_rc).trace =
      [{ hdr := rep.backtrace, body := msg.body }] ∧
    (∀ m ∈ sent (nn_rep_send rep msg xrep_send_rc).trace, m.body = msg.body) ∧
    (nn_rep_send rep msg xrep_send_rc).msg.body = msg.body ∧
    (nn_rep_recv rep2 buf raw).msg.body = .live raw.body ∧
    (nn_rep_recv rep2 buf raw).msg =
      { ({ hdr := .live raw.hdr, body := .live raw.body } : nn_msg) with
        hdr := .live [] } := by
  have hf : ¬ (rep.flags &&& NN_REP_INPROGRESS = 0) := h
  have hsent : sent (nn_rep_send rep msg xrep_send_rc).trace =
      [{ hdr := rep.backtrace, body := msg.body }] := by
    by_cases hc : xrep_send_rc = 0 ∨ xrep_send_rc = -EAGAIN
    · simp [nn_rep_send, hf, hhdr, hc, sent, nn_chunkref_mv_fst]
    · simp [nn_rep_send, hf, hhdr, hc, sent, nn_chunkref_mv_fst]
  have hmsg := (nn_rep_recv_delivers rep2 buf raw hraw).2.2.2.1
  refine ⟨hsent, ?_, ?_, ?_, ?_⟩
  · intro m hm
    rw [hsent] at hm
    rw [List.mem_singleton.mp hm]
  · by_cases hc : xrep_send_rc = 0 ∨ xrep_send_rc = -EAGAIN
    · simp [nn_rep_send, hf, hhdr, hc]
    · simp [nn_rep_send, hf, hhdr, hc]
  · rw [hmsg]
  · rw [hmsg]

theorem body_unchanged_witness :
    sent (nn_rep_send { flags := 1, backtrace := .live [7] }
        { hdr := .live [], body := .live [4, 2] } 0).trace =
      [{ hdr := .live [7], body := .live [4, 2] }] :=
  (body_unchanged { flags := 1, backtrace := .live [7] }
    { hdr := .live [], body := .live [4, 2] } 0
    { flags := 0, backtrace := .uninit } { hdr := .uninit, body := .uninit }
    { rc := 0, hdr := [9], body := [3] }
    (by decide) (by decide) rfl).1

/-! ## The flags field -/

/-- C19: in every state reachable from a freshly created socket by any sequence
of recv, send and events calls, `flags` is either 0 or `NN_REP_INPROGRESS`: no
call sets any other bit. -/
theorem reachable_flags (s : nn_rep) (h : Reachable s) :
    s.flags = 0 ∨ s.flags = NN_REP_INPROGRESS := by
  obtain ⟨garbage, rc0, s0, ops, r, hcreate, hexec, hr⟩ := h
  have h0 : s0 = { flags := 0, backtrace := .uninit } :=
    nn_rep_create_ok garbage rc0 s0 hcreate
  have hs0 : s0.flags = 0 ∨ s0.flags = NN_REP_INPROGRESS := by
    rw [h0]
    exact Or.inl rfl
  have := flags_exec ops s0 r hs0 hexec
  rw [hr] at this
  exact this

theorem reachable_flags_witness :
    Reachable { flags := 0, backtrace := .moved } ∧
    ((0 : Nat) = 0 ∨ (0 : Nat) = NN_REP_INPROGRESS) :=
  have hreach : Reachable { flags := 0, backtrace := .moved } :=
    ⟨77, 0, { flags := 0, backtrace := .uninit },
      [Op.recv { hdr := .uninit, body := .uninit } { rc := 0, hdr := [7], body := [9] },
       Op.send { hdr := .live [], body := .live [2] } (-EAGAIN)],
      { rep := { flags := 0, backtrace := .moved },
        trace := [Effect.xrep_recv, Effect.chunkref_term (.live []),
                  Effect.xrep_send { hdr := .live [7], body := .live [2] }],
        log := [(Op.recv { hdr := .uninit, body := .uninit }
                   { rc := 0, hdr := [7], body := [9] }, 0),
                (Op.send { hdr := .live [], body := .live [2] } (-EAGAIN), 0)] },
      by decide, by decide, rfl⟩
  ⟨hreach, reachable_flags _ hreach⟩

/-! ## Ownership of the routing tokens -/

/-- C16: over the life of a socket (creation, any sequence of recv, send and
events calls in which no assertion fails, then destroy) every routing token
delivered by `nn_xrep_recv` is disposed of exactly once.  The delivered tokens
are, up to order and with multiplicity, the tokens `toks` the socket released
(on a superseding recv or on destroy) together with the tokens `handed` that
went into the header of a message handed to `nn_xrep_send`.  Each release of a
token found it live (no double release), each message handed over carries a
live token (no use after release), the only other releases are those of the
reply messages' own empty headers, and destroy releases the pending token
exactly when there is one, leaving no live token behind. -/
theorem token_ownership (garbage : Nat) (xrep_init_rc : Int) (s0 : nn_rep)
    (ops : List Op) (r : Run)
    (hcreate : nn_rep_create (nn_alloc garbage) xrep_init_rc = (0, some s0))
    (hexec : exec s0 ops = some r) :
    ∃ toks handed : List Bytes,
      List.Perm (released (r.trace ++ nn_rep_destroy r.rep))
        (replyHeaders r.log ++ toks.map nn_chunkref.live) ∧
      (sent (r.trace ++ nn_rep_destroy r.rep)).map nn_msg.hdr =
        handed.map nn_chunkref.live ∧
      List.Perm (delivered ops) (toks ++ handed) ∧
      released (nn_rep_destroy r.rep) = pending r.rep ∧
      (inprogress r.rep →
        ∃ T : Bytes, r.rep.backtrace = .live T ∧
          nn_rep_destroy r.rep = [Effect.chunkref_term (.live T)]) ∧
      (¬ inprogress r.rep →
        nn_rep_destroy r.rep = [] ∧ r.rep.backtrace.isLive = false) ∧
      (nn_rep_term r.rep).1.backtrace.isLive = false := by
  have h0 : s0 = { flags := 0, backtrace := .uninit } :=
    nn_rep_create_ok garbage xrep_init_rc s0 hcreate
  have hwf0 : token_iff_flag s0 := by
    rw [h0]
    decide
  have hp0 : pending s0 = [] := by rw [h0]; rfl
  have hwf : token_iff_flag r.rep := token_iff_flag_exec ops s0 r hwf0 hexec
  obtain ⟨X, e1, e2, hl⟩ := ownership_exec ops s0 r hexec
  obtain ⟨hX, hS⟩ := hl hwf0
  obtain ⟨hdrel, hdsent⟩ := nn_rep_destroy_released r.rep
  obtain ⟨toks, htoks⟩ : ∃ toks : List Bytes, X ++ pending r.rep = toks.map nn_chunkref.live := by
    apply live_list
    intro c hc
    rcases List.mem_append.mp hc with hc | hc
    · exact hX c hc
    · exact pending_live r.rep hwf c hc
  obtain ⟨handed, hhanded⟩ :
      ∃ handed : List Bytes, (sent r.trace).map nn_msg.hdr = handed.map nn_chunkref.live := by
    apply live_list
    intro c hc
    obtain ⟨m, hm, hmc⟩ := List.mem_map.mp hc
    rw [← hmc]
    exact hS m hm
  have hsentall : sent (r.trace ++ nn_rep_destroy r.rep) = sent r.trace := by
    rw [sent_append, hdsent, List.append_nil]
  refine ⟨toks, handed, ?_, ?_, ?_, hdrel, ?_, ?_, ?_⟩
  · rw [← Multiset.coe_eq_coe, released_append, hdrel, ← htoks,
      ← Multiset.coe_add, ← Multiset.coe_add, ← Multiset.coe_add, e1]
    abel
  · rw [hsentall]
    exact hhanded
  · rw [hp0] at e2
    have e3 : (↑((delivered ops).map nn_chunkref.live) : Multiset nn_chunkref) =
        ↑((toks ++ handed).map nn_chunkref.live) := by
      have e4 : (↑((delivered ops).map nn_chunkref.live) : Multiset nn_chunkref) =
          ↑X + ↑((sent r.trace).map nn_msg.hdr) + ↑(pending r.rep) := by
        rw [← e2]
        simp
      rw [e4, List.map_append, ← htoks, hhanded, ← Multiset.coe_add, ← Multiset.coe_add]
      abel
    rw [← Multiset.coe_eq_coe]
    rw [← Multiset.map_coe, ← Multiset.map_coe] at e3
    exact Multiset.map_injective live_injective e3
  · intro hp
    have hlive : r.rep.backtrace.isLive = true := hwf.mpr hp
    cases hb : r.rep.backtrace with
    | live T =>
      refine ⟨T, rfl, ?_⟩
      rw [nn_rep_destroy_trace, pending_inprogress r.rep hp, hb]
      rfl
    | uninit => rw [hb] at hlive; cases hlive
    | termed => rw [hb] at hlive; cases hlive
    | moved => rw [hb] at hlive; cases hlive
  · intro hp
    constructor
    · rw [nn_rep_destroy_trace, pending_idle r.rep hp]
      rfl
    · cases hl2 : r.rep.backtrace.isLive with
      | false => rfl
      | true => exact absurd (hwf.mp hl2) hp
  · by_cases hp : inprogress r.rep
    · have hf : ¬ (r.rep.flags &&& NN_REP_INPROGRESS = 0) := hp
      simp [nn_rep_term, hf, nn_chunkref_term, nn_chunkref.isLive]
    · have hf : r.rep.flags &&& NN_REP_INPROGRESS = 0 := by
        unfold inprogress at hp
        exact not_not.mp hp
      have : (nn_rep_term r.rep).1 = r.rep := by simp [nn_rep_term, hf]
      rw [this]
      cases hl2 : r.rep.backtrace.isLive with
      | false => rfl
      | true => exact absurd (hwf.mp hl2) hp

theorem token_ownership_witness :
    ∃ toks handed : List Bytes,
      List.Perm
        (released ([Effect.xrep_recv, Effect.chunkref_term (.live []),
            Effect.xrep_send { hdr := .live [7], body := .live [2] },
            Effect.xrep_recv, Effect.chunkref_term (.live [8]), Effect.xrep_recv] ++
          nn_rep_destroy { flags := 1, backtrace := .live [9] }))
        ([nn_chunkref.live []] ++ toks.map nn_chunkref.live) ∧
      List.Perm [[7], [8], [9]] (toks ++ handed) :=
  let ⟨toks, handed, h1, _, h3, _⟩ :=
    token_ownership 3 0 { flags := 0, backtrace := .uninit }
      [Op.recv { hdr := .uninit, body := .uninit } { rc := 0, hdr := [7], body := [1] },
       Op.send { hdr := .live [], body := .live [2] } 0,
       Op.recv { hdr := .uninit, body := .uninit } { rc := 0, hdr := [8], body := [1] },
       Op.recv { hdr := .uninit, body := .uninit } { rc := 0, hdr := [9], body := [1] }]
      { rep := { flags := 1, backtrace := .live [9] },
        trace := [Effect.xrep_recv, Effect.chunkref_term (.live []),
            Effect.xrep_send { hdr := .live [7], body := .live [2] },
            Effect.xrep_recv, Effect.chunkref_term (.live [8]), Effect.xrep_recv],
        log := [(Op.recv { hdr := .uninit, body := .uninit }
                   { rc := 0, hdr := [7], body := [1] }, 0),
                (Op.send { hdr := .live [], body := .live [2] } 0, 0),
                (Op.recv { hdr := .uninit, body := .uninit }
                   { rc := 0, hdr := [8], body := [1] }, 0),
                (Op.recv { hdr := .uninit, body := .uninit }
                   { rc := 0, hdr := [9], body := [1] }, 0)] }
      (by decide) (by decide)
  ⟨toks, handed, h1, h3⟩

end Rep
